import Mathlib

/-!
Verification development for the immcheck deep structural fingerprinting engine
(package immcheck, file immcheck.go).

The engine walks a reflected Go value by kind and fills a checksum map
(map[uintptr]uint64).  We shallowly embed the reachable-value graph as an
inductive type plus an explicit heap for pointer/interface indirection (Go
values reached through reflect.Value.Elem live behind addresses here, which is
what makes cyclic graphs representable).  The external content hash
(xxhash.Sum64, a third-party library, not repository code) is a parameter
`hash : List Nat → Nat`; the code truncates it to uint64, which we mirror with
an explicit mod 2^64.  Machine pointers (uintptr) are modelled as Nat; the
address 0 models a nil pointer/interface/map, exactly as value.IsNil does for
those kinds.  Go's recursive traversal is embedded with explicit fuel so that
every definition is executable and kernel-reducible; a dedicated theorem shows
a fuel bound, in terms of the number of distinct heap addresses, under which
the traversal never runs out of fuel.
-/

namespace Immcheck

/-- Numeric values of reflect.Kind used by the code (reflect package, Go). -/
def kindInvalid : Nat := 0

/-- reflect.Bool. Scalar kinds occupy 1 through 16. -/
def kindBool : Nat := 1

/-- reflect.Int. -/
def kindInt : Nat := 2

/-- reflect.Uint8. -/
def kindUint8 : Nat := 8

/-- reflect.Array. -/
def kindArray : Nat := 17

/-- reflect.Chan. -/
def kindChan : Nat := 18

/-- reflect.Func. -/
def kindFunc : Nat := 19

/-- reflect.Interface. -/
def kindInterface : Nat := 20

/-- reflect.Map. -/
def kindMap : Nat := 21

/-- reflect.Ptr. -/
def kindPtr : Nat := 22

/-- reflect.Slice. -/
def kindSlice : Nat := 23

/-- reflect.String. -/
def kindString : Nat := 24

/-- reflect.Struct. -/
def kindStruct : Nat := 25

/-- reflect.UnsafePointer. -/
def kindUnsafePointer : Nat := 26

/-- The checksum component of ValueSnapshot: the Go field
`checksums map[uintptr]uint64` (immcheck.go line 39), embedded as an
association list with unique keys maintained by insertion.  The capture-origin
fields of ValueSnapshot are diagnostic only (they never influence
checksumEquals) and are omitted. -/
abbrev Checksums := List (Nat × Nat)

/-- Lookup in the checksum map: the Go expression `snapshot.checksums[key]`
together with its ok flag. -/
def csFind : Checksums → Nat → Option Nat
  | [], _ => none
  | (k', v) :: rest, k => if k' = k then some v else csFind rest k

/-- Go map assignment `snapshot.checksums[key] = value`: overwrites the
binding if the key is present, otherwise adds it. -/
def csInsert : Checksums → Nat → Nat → Checksums
  | [], k, v => [(k, v)]
  | (k', v') :: rest, k, v =>
    if k' = k then (k, v) :: rest else (k', v') :: csInsert rest k v

/-- A freshly built snapshot's checksums: newValueSnapshot (immcheck.go lines
173-180) allocates an empty map. -/
def newValueSnapshot : Checksums := []

/-- ValueSnapshot.Reset (immcheck.go lines 48-54) deletes every key from the
checksum map (and clears the diagnostic origin, which we do not model). -/
def resetSnapshot (_s : Checksums) : Checksums := []

/-- Direct translation of checksumEquals (immcheck.go lines 391-405): sizes
must agree and every key of the new map must be bound in the original map to
the same value. -/
def checksumEquals (newChecksum : Checksums) (originalChecksum : Checksums) : Bool :=
  if newChecksum.length ≠ originalChecksum.length then false
  else newChecksum.all fun kv =>
    match csFind originalChecksum kv.1 with
    | none => false
    | some originalValue => kv.2 = originalValue

/-- Outcome of ValueSnapshot.CheckImmutabilityAgainst: the Go method panics
with InvalidSnapshotStateError on an empty side, returns nil on equality and
returns MutationDetectedError otherwise (immcheck.go lines 75-104). -/
inductive CheckResult : Type where
  | ok
  | mutationDetected
  | invalidSnapshotState
  deriving DecidableEq

/-- Translation of CheckImmutabilityAgainst (immcheck.go lines 75-104).  The
receiver v is the original snapshot and the argument is the new snapshot;
checksumEquals receives the new checksums first, exactly as in the source. -/
def checkImmutabilityAgainst (v : Checksums) (otherSnapshot : Checksums) : CheckResult :=
  if v.length = 0 ∨ otherSnapshot.length = 0 then .invalidSnapshotState
  else if checksumEquals otherSnapshot v then .ok
  else .mutationDetected

/-- The reachable-value graph of a Go value, by reflect.Kind group:
scalar covers Bool/Int*/Uint*/Uintptr/Float*/Complex* (kinds 1-16) carrying
the raw byte representation converValueTypeToBytesSlice reads; strct carries
the whole struct span's bytes plus its fields; seq covers Array/Slice/String
(kind 17, 23 or 24) carrying the backing-array address, the full backing byte
span (length times element size) and the per-index elements; assoc covers Map
(header address 0 means nil); ref covers Ptr/Interface (kind 22 or 20) whose
pointee lives in the heap at the given address, 0 meaning nil; rawKind covers
UnsafePointer/Func/Chan (kind 26, 19 or 18); invalidV is reflect.Invalid. -/
inductive GoValue : Type where
  | scalar (kind : Nat) (bytes : List Nat)
  | strct (bytes : List Nat) (fields : List GoValue)
  | seq (kind : Nat) (dataPtr : Nat) (span : List Nat) (elems : List GoValue)
  | assoc (addr : Nat) (entries : List (GoValue × GoValue))
  | ref (kind : Nat) (addr : Nat)
  | rawKind (kind : Nat) (addr : Nat)
  | invalidV

/-- The memory behind pointers and interfaces: each address owns the value
reflect.Value.Elem would return there. -/
abbrev Heap := List (Nat × GoValue)

/-- Dereference an address, modelling value.Elem() for Ptr/Interface. -/
def heapFind : Heap → Nat → Option GoValue
  | [], _ => none
  | (a, v) :: rest, addr => if a = addr then some v else heapFind rest addr

/-- ImmutabilityCheckOptions (immcheck.go lines 20-27). -/
structure Options : Type where
  skipOriginCapturing : Bool
  allowInherentlyUnsafeTypes : Bool
  deriving DecidableEq

mutual

/-- Direct translation of valueIsPrimitive (immcheck.go lines 256-276):
scalar kinds are primitive, a struct is primitive iff each field is, every
other kind is not. -/
def valueIsPrimitive : GoValue → Bool
  | .scalar _ _ => true
  | .strct _ fields => fieldsPrimitive fields
  | _ => false

/-- The field loop inside valueIsPrimitive's Struct case. -/
def fieldsPrimitive : List GoValue → Bool
  | [] => true
  | f :: fs => valueIsPrimitive f && fieldsPrimitive fs

end

/-- evalKey (immcheck.go lines 252-254): XOR of an observed word with the
numeric kind. -/
def evalKey (valuePointer : Nat) (kind : Nat) : Nat :=
  valuePointer ^^^ kind

/-- capturePointer (immcheck.go lines 313-316): a terminal address-derived
digest, stored under the address-and-kind key. -/
def capturePointer (snapshot : Checksums) (valuePointer : Nat) (valueKind : Nat) : Checksums :=
  csInsert snapshot (evalKey valuePointer valueKind) valuePointer

/-- captureRawBytesLevelChecksum (immcheck.go lines 318-325): hash the byte
span with the external 64-bit content hash (xxhash.Sum64, mirrored by the
parameter followed by truncation to uint64) and store the digest keyed by the
digest itself XOR the kind. -/
def captureRawBytesLevelChecksum (hash : List Nat → Nat) (snapshot : Checksums)
    (valueBytes : List Nat) (valueKind : Nat) : Checksums :=
  let hashSum := hash valueBytes % (2 ^ 64)
  csInsert snapshot (evalKey hashSum valueKind) hashSum

/-- convertSliceBasedTypeToByteSlice (immcheck.go lines 340-355): the backing
byte span of an Array/Slice/String; when the length is zero the element size
is left at zero, so the produced span is empty. -/
def convertSliceBasedTypeToByteSlice : GoValue → List Nat
  | .seq _ _ span elems => if elems.length = 0 then [] else span
  | _ => []

/-- Errors raised by the capture traversal: unsupportedType models the panics
with UnsupportedTypeError; danglingRef is a model-only artifact for a non-nil
reference whose address is missing from the heap (impossible for a real
reflect.Value, where Elem always exists, and excluded by refsOK below). -/
inductive CapErr : Type where
  | unsupportedType
  | danglingRef
  deriving DecidableEq

/-- Result of a fuel-indexed traversal step. -/
inductive CapResult : Type where
  | ok (cs : Checksums)
  | err (e : CapErr)
  | outOfFuel
  deriving DecidableEq

/-- Pending work of the traversal: value dispatch (captureChecksumMap), the
struct field loop (perFieldSnapshot, immcheck.go lines 289-300), the
sequence item loop (perItemSnapshot lines 302-311) and the map entry loop
(perEntrySnapshot lines 278-287). -/
inductive CaptureTask : Type where
  | value (v : GoValue)
  | fields (fs : List GoValue)
  | items (es : List GoValue)
  | entries (es : List (GoValue × GoValue))

/-- Fuel-indexed embedding of captureChecksumMap (immcheck.go lines 198-250)
together with its three loops.  One unit of fuel is consumed per step; the
fuel is a totality device only (see the termination theorem), every other
aspect follows the source line by line:
UnsafePointer/Func/Chan panic unless allowed, else a terminal pointer digest;
Ptr/Interface record nil terminally, short-circuit an already-seen key
without descending, else record the pointer and recurse into the pointee;
scalars hash their raw bytes; structs hash their whole span then run the
field loop (whose leading primitivity early-return is inlined here);
Array/Slice/String hash the full backing span then run the item loop guarded
by perItemSnapshot's emptiness/primitive-element check; maps record nil
terminally, else store the entry count under the header key and run the
entry loop; Invalid panics. -/
def captureGo (hash : List Nat → Nat) (heap : Heap) (options : Options) :
    Nat → Checksums → CaptureTask → CapResult
  | 0, _, _ => .outOfFuel
  | fuel + 1, snapshot, .value v =>
    match v with
    | .rawKind valueKind addr =>
      if options.allowInherentlyUnsafeTypes then
        .ok (capturePointer snapshot addr valueKind)
      else .err .unsupportedType
    | .ref valueKind addr =>
      if addr = 0 then .ok (capturePointer snapshot addr valueKind)
      else if (csFind snapshot (evalKey addr valueKind)).isSome then .ok snapshot
      else
        match heapFind heap addr with
        | some pointee =>
          captureGo hash heap options fuel
            (capturePointer snapshot addr valueKind) (.value pointee)
        | none => .err .danglingRef
    | .scalar valueKind bytes =>
      .ok (captureRawBytesLevelChecksum hash snapshot bytes valueKind)
    | .strct bytes fields =>
      if valueIsPrimitive (.strct bytes fields) then
        .ok (captureRawBytesLevelChecksum hash snapshot bytes kindStruct)
      else
        captureGo hash heap options fuel
          (captureRawBytesLevelChecksum hash snapshot bytes kindStruct) (.fields fields)
    | .seq valueKind dataPtr span elems =>
      match elems with
      | [] =>
        .ok (captureRawBytesLevelChecksum hash snapshot
          (convertSliceBasedTypeToByteSlice (.seq valueKind dataPtr span elems)) valueKind)
      | e :: _ =>
        if valueIsPrimitive e then
          .ok (captureRawBytesLevelChecksum hash snapshot
            (convertSliceBasedTypeToByteSlice (.seq valueKind dataPtr span elems)) valueKind)
        else
          captureGo hash heap options fuel
            (captureRawBytesLevelChecksum hash snapshot
              (convertSliceBasedTypeToByteSlice (.seq valueKind dataPtr span elems)) valueKind)
            (.items elems)
    | .assoc addr entries =>
      if addr = 0 then .ok (capturePointer snapshot addr kindMap)
      else
        captureGo hash heap options fuel
          (csInsert snapshot (evalKey addr kindMap) entries.length) (.entries entries)
    | .invalidV => .err .unsupportedType
  | fuel + 1, snapshot, .fields fs =>
    match fs with
    | [] => .ok snapshot
    | f :: rest =>
      if valueIsPrimitive f then captureGo hash heap options fuel snapshot (.fields rest)
      else
        match captureGo hash heap options fuel snapshot (.value f) with
        | .ok snapshot1 => captureGo hash heap options fuel snapshot1 (.fields rest)
        | r => r
  | fuel + 1, snapshot, .items es =>
    match es with
    | [] => .ok snapshot
    | e :: rest =>
      match captureGo hash heap options fuel snapshot (.value e) with
      | .ok snapshot1 => captureGo hash heap options fuel snapshot1 (.items rest)
      | r => r
  | fuel + 1, snapshot, .entries es =>
    match es with
    | [] => .ok snapshot
    | (k, v) :: rest =>
      match captureGo hash heap options fuel snapshot (.value k) with
      | .ok snapshot1 =>
        match captureGo hash heap options fuel snapshot1 (.value v) with
        | .ok snapshot2 => captureGo hash heap options fuel snapshot2 (.entries rest)
        | r => r
      | r => r

/-- captureChecksumMap on a root value. -/
def captureChecksumMap (hash : List Nat → Nat) (heap : Heap) (options : Options)
    (fuel : Nat) (snapshot : Checksums) (v : GoValue) : CapResult :=
  captureGo hash heap options fuel snapshot (.value v)

/-- CaptureSnapshot / CaptureSnapshotWithOptions (immcheck.go lines 108-124):
reset the destination snapshot, then run captureChecksumMap on the root. -/
def captureSnapshot (hash : List Nat → Nat) (heap : Heap) (options : Options)
    (fuel : Nat) (v : GoValue) : CapResult :=
  captureChecksumMap hash heap options fuel newValueSnapshot v

end Immcheck

namespace Immcheck

/-! Basic properties of the checksum map operations. -/

/-- Keys of the checksum map are pairwise distinct; capture maintains this. -/
def csNodupKeys (m : Checksums) : Prop :=
  m.Pairwise fun a b => a.1 ≠ b.1

theorem csFind_insert_self (m : Checksums) (k v : Nat) :
    csFind (csInsert m k v) k = some v := by
  induction m with
  | nil => simp [csInsert, csFind]
  | cons p rest ih =>
    rcases p with ⟨pk, pv⟩
    by_cases h : pk = k
    · simp [csInsert, h, csFind]
    · simp [csInsert, h, csFind, ih]

theorem csFind_insert_ne (m : Checksums) (k v k' : Nat) (h : k' ≠ k) :
    csFind (csInsert m k v) k' = csFind m k' := by
  have h' : k ≠ k' := Ne.symm h
  induction m with
  | nil => simp [csInsert, csFind, h']
  | cons p rest ih =>
    rcases p with ⟨pk, pv⟩
    by_cases hp : pk = k
    · subst hp
      simp [csInsert, csFind, h']
    · simp only [csInsert, hp, if_false, csFind]
      by_cases hp' : pk = k'
      · simp [hp']
      · simp [hp', ih]

theorem csFind_insert_isSome (m : Checksums) (k v k' : Nat) :
    (csFind (csInsert m k v) k').isSome ↔ (k' = k ∨ (csFind m k').isSome) := by
  by_cases h : k' = k
  · subst h; simp [csFind_insert_self]
  · simp [csFind_insert_ne m k v k' h, h]

theorem length_le_csInsert (m : Checksums) (k v : Nat) :
    m.length ≤ (csInsert m k v).length := by
  induction m with
  | nil => simp [csInsert]
  | cons p rest ih =>
    rcases p with ⟨pk, pv⟩
    by_cases h : pk = k
    · simp [csInsert, h]
    · simp only [csInsert, h, if_false, List.length_cons]
      omega

theorem one_le_length_csInsert (m : Checksums) (k v : Nat) :
    1 ≤ (csInsert m k v).length := by
  cases m with
  | nil => simp [csInsert]
  | cons p rest =>
    rcases p with ⟨pk, pv⟩
    by_cases h : pk = k <;> simp [csInsert, h]

theorem mem_csInsert (m : Checksums) (k v : Nat) (b : Nat × Nat)
    (hb : b ∈ csInsert m k v) : b.1 = k ∨ b ∈ m := by
  induction m with
  | nil =>
    simp [csInsert] at hb
    left; rw [hb]
  | cons p rest ih =>
    rcases p with ⟨pk, pv⟩
    by_cases hp : pk = k
    · simp [csInsert, hp] at hb
      rcases hb with hb | hb
      · left; rw [hb]
      · right; exact List.mem_cons_of_mem _ hb
    · simp only [csInsert, hp, if_false, List.mem_cons] at hb
      rcases hb with hb | hb
      · right; rw [hb]; exact List.mem_cons_self _ _
      · rcases ih hb with hh | hh
        · left; exact hh
        · right; exact List.mem_cons_of_mem _ hh

theorem csNodupKeys_insert (m : Checksums) (k v : Nat) (h : csNodupKeys m) :
    csNodupKeys (csInsert m k v) := by
  induction m with
  | nil =>
    simp [csInsert, csNodupKeys]
  | cons p rest ih =>
    rcases p with ⟨pk, pv⟩
    rcases List.pairwise_cons.mp h with ⟨hp, hrest⟩
    by_cases hk : pk = k
    · subst hk
      unfold csNodupKeys
      simp only [csInsert, if_pos rfl]
      exact List.pairwise_cons.mpr ⟨fun b hb => hp b hb, hrest⟩
    · unfold csNodupKeys
      simp only [csInsert, hk, if_false]
      refine List.pairwise_cons.mpr ⟨?_, ih hrest⟩
      intro b hb
      rcases mem_csInsert rest k v b hb with hb1 | hb2
      · rw [hb1]; exact hk
      · exact hp b hb2

theorem csFind_of_mem (m : Checksums) (h : csNodupKeys m) (k v : Nat)
    (hm : (k, v) ∈ m) : csFind m k = some v := by
  induction m with
  | nil => simp at hm
  | cons p rest ih =>
    rcases List.pairwise_cons.mp h with ⟨hp, hrest⟩
    rcases List.mem_cons.mp hm with hm | hm
    · rw [← hm]; simp [csFind]
    · have hne : p.1 ≠ k := hp (k, v) hm
      simp [csFind, hne, ih hrest hm]

theorem checksumEquals_refl (m : Checksums) (h : csNodupKeys m) :
    checksumEquals m m = true := by
  simp only [checksumEquals, ne_eq, not_true_eq_false, if_false, List.all_eq_true]
  intro kv hkv
  have : csFind m kv.1 = some kv.2 := csFind_of_mem m h kv.1 kv.2 hkv
  rw [this]
  simp

end Immcheck

namespace Immcheck

/-! Structural invariants of the traversal.  Every snapshot produced by
captureGo is obtained from its input snapshot by a sequence of csInsert
operations; the generic lemma below transfers any reflexive transitive
relation that csInsert respects. -/

theorem captureGo_snapshot_rel (hash : List Nat → Nat) (heap : Heap) (o : Options)
    (R : Checksums → Checksums → Prop)
    (hrefl : ∀ m, R m m)
    (htrans : ∀ a b c, R a b → R b c → R a c)
    (hins : ∀ m k v, R m (csInsert m k v)) :
    ∀ fuel snap task cs, captureGo hash heap o fuel snap task = .ok cs → R snap cs := by
  intro fuel
  induction fuel with
  | zero =>
    intro snap task cs h
    simp [captureGo] at h
  | succ n ih =>
    intro snap task cs h
    have hraw : ∀ (m : Checksums) (b : List Nat) (kd : Nat),
        R m (captureRawBytesLevelChecksum hash m b kd) := by
      intro m b kd
      simpa [captureRawBytesLevelChecksum] using hins m _ _
    have hptr : ∀ (m : Checksums) (p kd : Nat), R m (capturePointer m p kd) := by
      intro m p kd
      simpa [capturePointer] using hins m _ _
    cases task with
    | value v =>
      cases v with
      | scalar kind bytes =>
        simp only [captureGo] at h
        cases h
        exact hraw snap bytes kind
      | strct bytes fields =>
        simp only [captureGo] at h
        split at h
        · cases h
          exact hraw snap bytes kindStruct
        · exact htrans _ _ _ (hraw snap bytes kindStruct) (ih _ _ _ h)
      | seq kind dataPtr span elems =>
        simp only [captureGo] at h
        split at h
        · cases h
          exact hraw snap _ kind
        · split at h
          · cases h
            exact hraw snap _ kind
          · exact htrans _ _ _ (hraw snap _ kind) (ih _ _ _ h)
      | assoc addr entries =>
        simp only [captureGo] at h
        split at h
        · cases h
          exact hptr snap addr kindMap
        · exact htrans _ _ _ (hins snap _ _) (ih _ _ _ h)
      | ref kind addr =>
        simp only [captureGo] at h
        split at h
        · cases h
          exact hptr snap addr kind
        · split at h
          · cases h
            exact hrefl snap
          · split at h
            · exact htrans _ _ _ (hptr snap addr kind) (ih _ _ _ h)
            · cases h
      | rawKind kind addr =>
        simp only [captureGo] at h
        split at h
        · cases h
          exact hptr snap addr kind
        · cases h
      | invalidV =>
        simp only [captureGo] at h
        cases h
    | fields fs =>
      match fs, h with
      | [], h =>
        simp only [captureGo] at h
        cases h
        exact hrefl snap
      | f :: rest, h =>
        simp only [captureGo] at h
        split at h
        · exact ih _ _ _ h
        · cases hcall : captureGo hash heap o n snap (.value f) with
          | ok snap1 =>
            rw [hcall] at h
            exact htrans _ _ _ (ih _ _ _ hcall) (ih _ _ _ h)
          | err e => rw [hcall] at h; cases h
          | outOfFuel => rw [hcall] at h; cases h
    | items es =>
      match es, h with
      | [], h =>
        simp only [captureGo] at h
        cases h
        exact hrefl snap
      | e :: rest, h =>
        simp only [captureGo] at h
        cases hcall : captureGo hash heap o n snap (.value e) with
        | ok snap1 =>
          rw [hcall] at h
          exact htrans _ _ _ (ih _ _ _ hcall) (ih _ _ _ h)
        | err e' => rw [hcall] at h; cases h
        | outOfFuel => rw [hcall] at h; cases h
    | entries es =>
      match es, h with
      | [], h =>
        simp only [captureGo] at h
        cases h
        exact hrefl snap
      | (k, v) :: rest, h =>
        cases hcall : captureGo hash heap o n snap (.value k) with
        | ok snap1 =>
          cases hcall2 : captureGo hash heap o n snap1 (.value v) with
          | ok snap2 =>
            simp only [captureGo, hcall, hcall2] at h
            exact htrans _ _ _ (ih _ _ _ hcall)
              (htrans _ _ _ (ih _ _ _ hcall2) (ih _ _ _ h))
          | err e' =>
            simp only [captureGo, hcall, hcall2] at h
            cases h
          | outOfFuel =>
            simp only [captureGo, hcall, hcall2] at h
            cases h
        | err e' =>
          simp only [captureGo, hcall] at h
          cases h
        | outOfFuel =>
          simp only [captureGo, hcall] at h
          cases h

end Immcheck

namespace Immcheck

/-- Keys present in the snapshot before a traversal step are still present
afterwards: the traversal only ever adds or overwrites bindings. -/
theorem captureGo_keys_mono (hash : List Nat → Nat) (heap : Heap) (o : Options)
    (fuel : Nat) (snap : Checksums) (task : CaptureTask) (cs : Checksums)
    (h : captureGo hash heap o fuel snap task = .ok cs) :
    ∀ k, (csFind snap k).isSome → (csFind cs k).isSome :=
  captureGo_snapshot_rel hash heap o
    (fun a b => ∀ k, (csFind a k).isSome → (csFind b k).isSome)
    (fun _ _ hk => hk)
    (fun _ _ _ hab hbc k hk => hbc k (hab k hk))
    (fun m k v k' hk => (csFind_insert_isSome m k v k').mpr (Or.inr hk))
    fuel snap task cs h

/-- The snapshot never shrinks during a traversal. -/
theorem captureGo_length_mono (hash : List Nat → Nat) (heap : Heap) (o : Options)
    (fuel : Nat) (snap : Checksums) (task : CaptureTask) (cs : Checksums)
    (h : captureGo hash heap o fuel snap task = .ok cs) :
    snap.length ≤ cs.length :=
  captureGo_snapshot_rel hash heap o (fun a b => a.length ≤ b.length)
    (fun _ => le_refl _) (fun _ _ _ => le_trans) length_le_csInsert
    fuel snap task cs h

/-- Key uniqueness of the checksum map is preserved by the traversal. -/
theorem captureGo_nodup (hash : List Nat → Nat) (heap : Heap) (o : Options)
    (fuel : Nat) (snap : Checksums) (task : CaptureTask) (cs : Checksums)
    (h : captureGo hash heap o fuel snap task = .ok cs) (hs : csNodupKeys snap) :
    csNodupKeys cs :=
  captureGo_snapshot_rel hash heap o (fun a b => csNodupKeys a → csNodupKeys b)
    (fun _ hk => hk) (fun _ _ _ hab hbc hk => hbc (hab hk))
    (fun m k v hm => csNodupKeys_insert m k v hm)
    fuel snap task cs h hs

theorem one_le_length_captureRawBytes (hash : List Nat → Nat) (m : Checksums)
    (b : List Nat) (kd : Nat) : 1 ≤ (captureRawBytesLevelChecksum hash m b kd).length :=
  one_le_length_csInsert m _ _

theorem one_le_length_capturePointer (m : Checksums) (p kd : Nat) :
    1 ≤ (capturePointer m p kd).length :=
  one_le_length_csInsert m _ _

theorem csFind_isSome_nonempty (m : Checksums) (k : Nat)
    (h : (csFind m k).isSome) : 1 ≤ m.length := by
  cases m with
  | nil => simp [csFind] at h
  | cons p rest => simp

/-- A successful capture of any root value leaves at least one fingerprint
entry: every dispatch branch of captureChecksumMap writes an entry before
returning or recursing, and the visited-reference short circuit presupposes
an entry already present. -/
theorem captureGo_value_nonempty (hash : List Nat → Nat) (heap : Heap) (o : Options)
    (fuel : Nat) (snap : Checksums) (v : GoValue) (cs : Checksums)
    (h : captureGo hash heap o fuel snap (.value v) = .ok cs) :
    1 ≤ cs.length := by
  cases fuel with
  | zero => simp [captureGo] at h
  | succ n =>
    cases v with
    | scalar kind bytes =>
      simp only [captureGo] at h
      cases h
      exact one_le_length_captureRawBytes hash snap bytes kind
    | strct bytes fields =>
      simp only [captureGo] at h
      split at h
      · cases h
        exact one_le_length_captureRawBytes hash snap bytes kindStruct
      · exact le_trans (one_le_length_captureRawBytes hash snap bytes kindStruct)
          (captureGo_length_mono hash heap o n _ _ cs h)
    | seq kind dataPtr span elems =>
      simp only [captureGo] at h
      split at h
      · cases h
        exact one_le_length_captureRawBytes hash snap _ kind
      · split at h
        · cases h
          exact one_le_length_captureRawBytes hash snap _ kind
        · exact le_trans (one_le_length_captureRawBytes hash snap _ kind)
            (captureGo_length_mono hash heap o n _ _ cs h)
    | assoc addr entries =>
      simp only [captureGo] at h
      split at h
      · cases h
        exact one_le_length_capturePointer snap addr kindMap
      · exact le_trans (one_le_length_csInsert snap _ _)
          (captureGo_length_mono hash heap o n _ _ cs h)
    | ref kind addr =>
      simp only [captureGo] at h
      split at h
      · cases h
        exact one_le_length_capturePointer snap addr kind
      · split at h
        · rename_i hfound
          cases h
          exact csFind_isSome_nonempty snap (evalKey addr kind) hfound
        · split at h
          · exact le_trans (one_le_length_capturePointer snap addr kind)
              (captureGo_length_mono hash heap o n _ _ cs h)
          · cases h
    | rawKind kind addr =>
      simp only [captureGo] at h
      split at h
      · cases h
        exact one_le_length_capturePointer snap addr kind
      · cases h
    | invalidV =>
      simp only [captureGo] at h
      cases h

end Immcheck

namespace Immcheck

/-! One-step unfolding equations for captureGo, used to keep goals small. -/

theorem captureGo_step_scalar (hash : List Nat → Nat) (heap : Heap) (o : Options)
    (fuel : Nat) (snap : Checksums) (kind : Nat) (bytes : List Nat) :
    captureGo hash heap o (fuel + 1) snap (.value (.scalar kind bytes)) =
      .ok (captureRawBytesLevelChecksum hash snap bytes kind) := rfl

theorem captureGo_step_strct (hash : List Nat → Nat) (heap : Heap) (o : Options)
    (fuel : Nat) (snap : Checksums) (bytes : List Nat) (fields : List GoValue) :
    captureGo hash heap o (fuel + 1) snap (.value (.strct bytes fields)) =
      (if valueIsPrimitive (.strct bytes fields) then
        .ok (captureRawBytesLevelChecksum hash snap bytes kindStruct)
      else
        captureGo hash heap o fuel
          (captureRawBytesLevelChecksum hash snap bytes kindStruct) (.fields fields)) := rfl

theorem captureGo_step_seq_nil (hash : List Nat → Nat) (heap : Heap) (o : Options)
    (fuel : Nat) (snap : Checksums) (kind dataPtr : Nat) (span : List Nat) :
    captureGo hash heap o (fuel + 1) snap (.value (.seq kind dataPtr span [])) =
      .ok (captureRawBytesLevelChecksum hash snap
        (convertSliceBasedTypeToByteSlice (.seq kind dataPtr span [])) kind) := rfl

theorem captureGo_step_seq_cons (hash : List Nat → Nat) (heap : Heap) (o : Options)
    (fuel : Nat) (snap : Checksums) (kind dataPtr : Nat) (span : List Nat)
    (e : GoValue) (rest : List GoValue) :
    captureGo hash heap o (fuel + 1) snap (.value (.seq kind dataPtr span (e :: rest))) =
      (if valueIsPrimitive e then
        .ok (captureRawBytesLevelChecksum hash snap
          (convertSliceBasedTypeToByteSlice (.seq kind dataPtr span (e :: rest))) kind)
      else
        captureGo hash heap o fuel
          (captureRawBytesLevelChecksum hash snap
            (convertSliceBasedTypeToByteSlice (.seq kind dataPtr span (e :: rest))) kind)
          (.items (e :: rest))) := rfl

theorem captureGo_step_assoc (hash : List Nat → Nat) (heap : Heap) (o : Options)
    (fuel : Nat) (snap : Checksums) (addr : Nat) (entries : List (GoValue × GoValue)) :
    captureGo hash heap o (fuel + 1) snap (.value (.assoc addr entries)) =
      (if addr = 0 then .ok (capturePointer snap addr kindMap)
      else
        captureGo hash heap o fuel
          (csInsert snap (evalKey addr kindMap) entries.length) (.entries entries)) := rfl

theorem captureGo_step_ref (hash : List Nat → Nat) (heap : Heap) (o : Options)
    (fuel : Nat) (snap : Checksums) (kind addr : Nat) :
    captureGo hash heap o (fuel + 1) snap (.value (.ref kind addr)) =
      (if addr = 0 then .ok (capturePointer snap addr kind)
      else if (csFind snap (evalKey addr kind)).isSome then .ok snap
      else
        match heapFind heap addr with
        | some pointee =>
          captureGo hash heap o fuel (capturePointer snap addr kind) (.value pointee)
        | none => .err .danglingRef) := rfl

theorem captureGo_step_rawKind (hash : List Nat → Nat) (heap : Heap) (o : Options)
    (fuel : Nat) (snap : Checksums) (kind addr : Nat) :
    captureGo hash heap o (fuel + 1) snap (.value (.rawKind kind addr)) =
      (if o.allowInherentlyUnsafeTypes then .ok (capturePointer snap addr kind)
      else .err .unsupportedType) := rfl

theorem captureGo_step_invalid (hash : List Nat → Nat) (heap : Heap) (o : Options)
    (fuel : Nat) (snap : Checksums) :
    captureGo hash heap o (fuel + 1) snap (.value .invalidV) = .err .unsupportedType := rfl

theorem captureGo_step_fields_nil (hash : List Nat → Nat) (heap : Heap) (o : Options)
    (fuel : Nat) (snap : Checksums) :
    captureGo hash heap o (fuel + 1) snap (.fields []) = .ok snap := rfl

theorem captureGo_step_fields_cons (hash : List Nat → Nat) (heap : Heap) (o : Options)
    (fuel : Nat) (snap : Checksums) (f : GoValue) (rest : List GoValue) :
    captureGo hash heap o (fuel + 1) snap (.fields (f :: rest)) =
      (if valueIsPrimitive f then captureGo hash heap o fuel snap (.fields rest)
      else
        match captureGo hash heap o fuel snap (.value f) with
        | .ok snapshot1 => captureGo hash heap o fuel snapshot1 (.fields rest)
        | r => r) := rfl

theorem captureGo_step_items_nil (hash : List Nat → Nat) (heap : Heap) (o : Options)
    (fuel : Nat) (snap : Checksums) :
    captureGo hash heap o (fuel + 1) snap (.items []) = .ok snap := rfl

theorem captureGo_step_items_cons (hash : List Nat → Nat) (heap : Heap) (o : Options)
    (fuel : Nat) (snap : Checksums) (e : GoValue) (rest : List GoValue) :
    captureGo hash heap o (fuel + 1) snap (.items (e :: rest)) =
      (match captureGo hash heap o fuel snap (.value e) with
      | .ok snapshot1 => captureGo hash heap o fuel snapshot1 (.items rest)
      | r => r) := rfl

theorem captureGo_step_entries_nil (hash : List Nat → Nat) (heap : Heap) (o : Options)
    (fuel : Nat) (snap : Checksums) :
    captureGo hash heap o (fuel + 1) snap (.entries []) = .ok snap := rfl

theorem captureGo_step_entries_cons (hash : List Nat → Nat) (heap : Heap) (o : Options)
    (fuel : Nat) (snap : Checksums) (k v : GoValue) (rest : List (GoValue × GoValue)) :
    captureGo hash heap o (fuel + 1) snap (.entries ((k, v) :: rest)) =
      (match captureGo hash heap o fuel snap (.value k) with
      | .ok snapshot1 =>
        match captureGo hash heap o fuel snapshot1 (.value v) with
        | .ok snapshot2 => captureGo hash heap o fuel snapshot2 (.entries rest)
        | r => r
      | r => r) := rfl

end Immcheck

namespace Immcheck

/-- Fuel is irrelevant once the traversal completes: a run that did not
exhaust its fuel returns the same outcome with one more unit of fuel. -/
theorem captureGo_fuel_succ (hash : List Nat → Nat) (heap : Heap) (o : Options) :
    ∀ fuel snap task r, captureGo hash heap o fuel snap task = r → r ≠ .outOfFuel →
      captureGo hash heap o (fuel + 1) snap task = r := by
  intro fuel
  induction fuel with
  | zero =>
    intro snap task r h hr
    simp only [captureGo] at h
    exact absurd h.symm hr
  | succ n ih =>
    intro snap task r h hr
    cases task with
    | value v =>
      cases v with
      | scalar kind bytes =>
        rw [captureGo_step_scalar] at h ⊢
        exact h
      | strct bytes fields =>
        rw [captureGo_step_strct] at h ⊢
        split at h
        · rw [if_pos (by assumption)]
          exact h
        · rw [if_neg (by assumption)]
          exact ih _ _ _ h hr
      | seq kind dataPtr span elems =>
        cases elems with
        | nil =>
          rw [captureGo_step_seq_nil] at h ⊢
          exact h
        | cons e rest =>
          rw [captureGo_step_seq_cons] at h ⊢
          split at h
          · rw [if_pos (by assumption)]
            exact h
          · rw [if_neg (by assumption)]
            exact ih _ _ _ h hr
      | assoc addr entries =>
        rw [captureGo_step_assoc] at h ⊢
        split at h
        · rw [if_pos (by assumption)]
          exact h
        · rw [if_neg (by assumption)]
          exact ih _ _ _ h hr
      | ref kind addr =>
        rw [captureGo_step_ref] at h ⊢
        split at h
        · rw [if_pos (by assumption)]
          exact h
        · rw [if_neg (by assumption)]
          split at h
          · rw [if_pos (by assumption)]
            exact h
          · rw [if_neg (by assumption)]
            split at h
            · exact ih _ _ _ h hr
            · exact h
      | rawKind kind addr =>
        rw [captureGo_step_rawKind] at h ⊢
        exact h
      | invalidV =>
        rw [captureGo_step_invalid] at h ⊢
        exact h
    | fields fs =>
      cases fs with
      | nil =>
        rw [captureGo_step_fields_nil] at h ⊢
        exact h
      | cons f rest =>
        rw [captureGo_step_fields_cons] at h ⊢
        split at h
        · rw [if_pos (by assumption)]
          exact ih _ _ _ h hr
        · rw [if_neg (by assumption)]
          cases hcall : captureGo hash heap o n snap (.value f) with
          | ok snap1 =>
            rw [hcall] at h
            rw [ih _ _ _ hcall (by simp)]
            exact ih _ _ _ h hr
          | err e =>
            rw [hcall] at h
            rw [ih _ _ _ hcall (by simp)]
            exact h
          | outOfFuel =>
            rw [hcall] at h
            exact absurd h.symm hr
    | items es =>
      cases es with
      | nil =>
        rw [captureGo_step_items_nil] at h ⊢
        exact h
      | cons e rest =>
        rw [captureGo_step_items_cons] at h ⊢
        cases hcall : captureGo hash heap o n snap (.value e) with
        | ok snap1 =>
          rw [hcall] at h
          rw [ih _ _ _ hcall (by simp)]
          exact ih _ _ _ h hr
        | err e' =>
          rw [hcall] at h
          rw [ih _ _ _ hcall (by simp)]
          exact h
        | outOfFuel =>
          rw [hcall] at h
          exact absurd h.symm hr
    | entries es =>
      cases es with
      | nil =>
        rw [captureGo_step_entries_nil] at h ⊢
        exact h
      | cons kv rest =>
        rcases kv with ⟨k, v⟩
        rw [captureGo_step_entries_cons] at h ⊢
        cases hcall : captureGo hash heap o n snap (.value k) with
        | ok snap1 =>
          simp only [hcall] at h
          simp only [ih _ _ _ hcall (by simp)]
          cases hcall2 : captureGo hash heap o n snap1 (.value v) with
          | ok snap2 =>
            simp only [hcall2] at h
            simp only [ih _ _ _ hcall2 (by simp)]
            exact ih _ _ _ h hr
          | err e' =>
            simp only [hcall2] at h
            simp only [ih _ _ _ hcall2 (by simp)]
            exact h
          | outOfFuel =>
            simp only [hcall2] at h
            exact absurd h.symm hr
        | err e' =>
          simp only [hcall] at h
          simp only [ih _ _ _ hcall (by simp)]
          exact h
        | outOfFuel =>
          simp only [hcall] at h
          exact absurd h.symm hr

/-- Fuel monotonicity for any larger amount of fuel. -/
theorem captureGo_fuel_mono (hash : List Nat → Nat) (heap : Heap) (o : Options)
    (fuel fuel' : Nat) (snap : Checksums) (task : CaptureTask) (r : CapResult)
    (h : captureGo hash heap o fuel snap task = r) (hr : r ≠ .outOfFuel)
    (hle : fuel ≤ fuel') : captureGo hash heap o fuel' snap task = r := by
  rcases Nat.le.dest hle with ⟨d, hd⟩
  subst hd
  clear hle
  induction d with
  | zero => exact h
  | succ m ihm =>
    have hrw : fuel + (m + 1) = (fuel + m) + 1 := by omega
    rw [hrw]
    exact captureGo_fuel_succ hash heap o _ _ _ _ ihm hr

end Immcheck

namespace Immcheck

/-- The struct field loop visits exactly the non-primitive fields: running the
field loop (which skips primitive fields one by one) is the same as running
the plain item loop on the non-primitive sublist. -/
theorem captureGo_fields_filter (hash : List Nat → Nat) (heap : Heap) (o : Options) :
    ∀ fuel snap fs r, captureGo hash heap o fuel snap (.fields fs) = r →
      r ≠ .outOfFuel →
      captureGo hash heap o fuel snap
        (.items (fs.filter fun f => ! valueIsPrimitive f)) = r := by
  intro fuel
  induction fuel with
  | zero =>
    intro snap fs r h hr
    simp only [captureGo] at h
    exact absurd h.symm hr
  | succ n ih =>
    intro snap fs r h hr
    cases fs with
    | nil =>
      rw [captureGo_step_fields_nil] at h
      simpa [List.filter, captureGo_step_items_nil] using h
    | cons f rest =>
      rw [captureGo_step_fields_cons] at h
      by_cases hp : valueIsPrimitive f = true
      · rw [if_pos hp] at h
        have hfil : (f :: rest).filter (fun f => ! valueIsPrimitive f) =
            rest.filter (fun f => ! valueIsPrimitive f) := by
          simp [List.filter_cons, hp]
        rw [hfil]
        exact captureGo_fuel_succ hash heap o n snap _ r (ih snap rest r h hr) hr
      · rw [if_neg hp] at h
        have hfil : (f :: rest).filter (fun f => ! valueIsPrimitive f) =
            f :: rest.filter (fun f => ! valueIsPrimitive f) := by
          simp [List.filter_cons, hp]
        rw [hfil, captureGo_step_items_cons]
        cases hcall : captureGo hash heap o n snap (.value f) with
        | ok snap1 =>
          simp only [hcall] at h
          exact ih snap1 rest r h hr
        | err e =>
          simp only [hcall] at h
          exact h
        | outOfFuel =>
          simp only [hcall] at h
          exact absurd h.symm hr

end Immcheck

namespace Immcheck

/-! Termination of the traversal.  The cost measure below bounds the
recursion depth of captureChecksumMap by the structural size of the value in
hand plus, for every reference not yet recorded in the snapshot, the size of
the largest heap node; this is the precise sense in which the work is bounded
by the number of distinct reachable addresses. -/

mutual

/-- Structural size of a value (not following heap indirections). -/
def sizeG : GoValue → Nat
  | .scalar _ _ => 1
  | .strct _ fields => 1 + sizeL fields
  | .seq _ _ _ elems => 1 + sizeL elems
  | .assoc _ entries => 1 + sizeE entries
  | .ref _ _ => 1
  | .rawKind _ _ => 1
  | .invalidV => 1

/-- Size of a field or item list. -/
def sizeL : List GoValue → Nat
  | [] => 1
  | f :: fs => 1 + sizeG f + sizeL fs

/-- Size of a map entry list. -/
def sizeE : List (GoValue × GoValue) → Nat
  | [] => 1
  | (k, v) :: es => 1 + sizeG k + sizeG v + sizeE es

end

mutual

/-- Well-formedness of references inside a value: a ref node is a Ptr or an
Interface and, when non-nil, its pointee exists in the heap.  This is what
reflect guarantees for a real value graph. -/
def refsOK (heap : Heap) : GoValue → Bool
  | .scalar _ _ => true
  | .strct _ fields => refsOKList heap fields
  | .seq _ _ _ elems => refsOKList heap elems
  | .assoc _ entries => refsOKEntries heap entries
  | .ref kind addr =>
    (kind = kindInterface || kind = kindPtr) && (addr = 0 || (heapFind heap addr).isSome)
  | .rawKind _ _ => true
  | .invalidV => true

def refsOKList (heap : Heap) : List GoValue → Bool
  | [] => true
  | f :: fs => refsOK heap f && refsOKList heap fs

def refsOKEntries (heap : Heap) : List (GoValue × GoValue) → Bool
  | [] => true
  | (k, v) :: es => refsOK heap k && (refsOK heap v && refsOKEntries heap es)

end

/-- Every value stored in the heap is itself reference-well-formed. -/
def heapOK (heap : Heap) : Bool :=
  heap.all fun p => refsOK heap p.2

/-- Reference well-formedness of pending work. -/
def taskOK (heap : Heap) : CaptureTask → Bool
  | .value v => refsOK heap v
  | .fields fs => refsOKList heap fs
  | .items es => refsOKList heap es
  | .entries es => refsOKEntries heap es

/-- The addresses present in the heap. -/
def heapAddrs (heap : Heap) : List Nat :=
  heap.map Prod.fst

/-- Size of the largest heap node. -/
def maxNodeSize (heap : Heap) : Nat :=
  heap.foldr (fun p m => max (sizeG p.2) m) 0

/-- Number of reference locators over heap addresses (one per Interface kind
and one per Ptr kind) that the snapshot has not recorded yet. -/
def unvisitedCount (snap : Checksums) (heap : Heap) : Nat :=
  ((heapAddrs heap).filter fun a => (csFind snap (evalKey a kindInterface)).isNone).length +
    ((heapAddrs heap).filter fun a => (csFind snap (evalKey a kindPtr)).isNone).length

/-- Cost of pending work. -/
def taskSize : CaptureTask → Nat
  | .value v => sizeG v
  | .fields fs => sizeL fs
  | .items es => sizeL es
  | .entries es => sizeE es

/-- Fuel bound: structural cost plus one full node allowance per unvisited
reference locator. -/
def captureNeed (heap : Heap) (snap : Checksums) (task : CaptureTask) : Nat :=
  taskSize task + unvisitedCount snap heap * (1 + maxNodeSize heap)

theorem heapFind_mem (heap : Heap) (a : Nat) (p : GoValue)
    (h : heapFind heap a = some p) : (a, p) ∈ heap := by
  induction heap with
  | nil => simp [heapFind] at h
  | cons q rest ih =>
    rcases q with ⟨qa, qv⟩
    by_cases hq : qa = a
    · subst hq
      simp only [heapFind, if_pos rfl] at h
      cases h
      exact List.mem_cons_self _ _
    · simp only [heapFind, hq, if_false] at h
      exact List.mem_cons_of_mem _ (ih h)

theorem sizeG_le_maxNodeSize (heap : Heap) (a : Nat) (p : GoValue)
    (h : (a, p) ∈ heap) : sizeG p ≤ maxNodeSize heap := by
  induction heap with
  | nil => simp at h
  | cons q rest ih =>
    rcases List.mem_cons.mp h with h | h
    · rw [← h]
      simp only [maxNodeSize, List.foldr_cons]
      exact le_max_left _ _
    · simp only [maxNodeSize, List.foldr_cons]
      exact le_trans (ih h) (le_max_right _ _)

theorem mem_heapAddrs (heap : Heap) (a : Nat) (p : GoValue)
    (h : (a, p) ∈ heap) : a ∈ heapAddrs heap :=
  List.mem_map.mpr ⟨(a, p), h, rfl⟩

theorem heapOK_refsOK (heap : Heap) (a : Nat) (p : GoValue)
    (hheap : heapOK heap = true) (h : (a, p) ∈ heap) : refsOK heap p = true := by
  exact List.all_eq_true.mp hheap (a, p) h

theorem filter_length_le_of_imp (l : List Nat) (p q : Nat → Bool)
    (himp : ∀ x, p x = true → q x = true) :
    (l.filter p).length ≤ (l.filter q).length := by
  induction l with
  | nil => simp
  | cons x xs ih =>
    by_cases hp : p x = true
    · simp only [List.filter_cons, hp, himp x hp, if_true, List.length_cons]
      omega
    · have hp' : p x = false := by
        cases hx : p x
        · rfl
        · exact absurd hx hp
      by_cases hq : q x = true
      · simp only [List.filter_cons, hp', hq]
        simp only [Bool.false_eq_true, if_false, if_true, List.length_cons]
        omega
      · have hq' : q x = false := by
          cases hx : q x
          · rfl
          · exact absurd hx hq
        simp only [List.filter_cons, hp', hq']
        simp only [Bool.false_eq_true, if_false]
        exact ih

theorem filter_length_lt_of_flip (l : List Nat) (p q : Nat → Bool) (a : Nat)
    (ha : a ∈ l) (hpa : p a = false) (hqa : q a = true)
    (himp : ∀ x, p x = true → q x = true) :
    (l.filter p).length < (l.filter q).length := by
  induction l with
  | nil => simp at ha
  | cons x xs ih =>
    rcases List.mem_cons.mp ha with hx | hx
    · subst hx
      simp only [List.filter_cons, hpa, hqa, Bool.false_eq_true, if_false, if_true,
        List.length_cons]
      exact Nat.lt_succ_of_le (filter_length_le_of_imp xs p q himp)
    · by_cases hp : p x = true
      · simp only [List.filter_cons, hp, himp x hp, if_true, List.length_cons]
        exact Nat.succ_lt_succ (ih hx)
      · have hp' : p x = false := by
          cases hc : p x
          · rfl
          · exact absurd hc hp
        by_cases hq : q x = true
        · simp only [List.filter_cons, hp', hq, Bool.false_eq_true, if_false, if_true,
            List.length_cons]
          exact Nat.lt_succ_of_lt (ih hx)
        · have hq' : q x = false := by
            cases hc : q x
            · rfl
            · exact absurd hc hq
          simp only [List.filter_cons, hp', hq', Bool.false_eq_true, if_false]
          exact ih hx

/-- Growing the snapshot can only reduce the number of unvisited locators. -/
theorem unvisitedCount_antitone (snap snap' : Checksums) (heap : Heap)
    (hgrow : ∀ k, (csFind snap k).isSome → (csFind snap' k).isSome) :
    unvisitedCount snap' heap ≤ unvisitedCount snap heap := by
  have himp : ∀ kd x, (csFind snap' (evalKey x kd)).isNone = true →
      (csFind snap (evalKey x kd)).isNone = true := by
    intro kd x hx
    rw [Option.isNone_iff_eq_none] at hx ⊢
    cases hfind : csFind snap (evalKey x kd) with
    | none => rfl
    | some d =>
      have := hgrow (evalKey x kd) (by simp [hfind])
      rw [hx] at this
      simp at this
  exact Nat.add_le_add
    (filter_length_le_of_imp (heapAddrs heap) _ _ (himp kindInterface))
    (filter_length_le_of_imp (heapAddrs heap) _ _ (himp kindPtr))

/-- Inserting under a snapshot key can only reduce the unvisited count. -/
theorem unvisitedCount_insert_le (snap : Checksums) (heap : Heap) (k v : Nat) :
    unvisitedCount (csInsert snap k v) heap ≤ unvisitedCount snap heap :=
  unvisitedCount_antitone snap (csInsert snap k v) heap
    (fun k' hk => (csFind_insert_isSome snap k v k').mpr (Or.inr hk))

/-- Recording a previously unvisited reference locator strictly decreases the
unvisited count. -/
theorem unvisitedCount_capturePointer_lt (snap : Checksums) (heap : Heap)
    (kind addr : Nat) (hkind : kind = kindInterface ∨ kind = kindPtr)
    (haddr : addr ∈ heapAddrs heap)
    (hnew : (csFind snap (evalKey addr kind)).isSome = false) :
    unvisitedCount (capturePointer snap addr kind) heap < unvisitedCount snap heap := by
  have hgrow : ∀ k', (csFind snap k').isSome →
      (csFind (capturePointer snap addr kind) k').isSome := by
    intro k' hk
    exact (csFind_insert_isSome snap _ _ k').mpr (Or.inr hk)
  have himp : ∀ x, (csFind (capturePointer snap addr kind) (evalKey x kind)).isNone = true →
      (csFind snap (evalKey x kind)).isNone = true := by
    intro x hx
    rw [Option.isNone_iff_eq_none] at hx ⊢
    cases hfind : csFind snap (evalKey x kind) with
    | none => rfl
    | some d =>
      have := hgrow (evalKey x kind) (by simp [hfind])
      rw [hx] at this
      simp at this
  have hself_none : (csFind (capturePointer snap addr kind) (evalKey addr kind)).isNone = false := by
    simp [capturePointer, csFind_insert_self]
  have hsnap_none : (csFind snap (evalKey addr kind)).isNone = true := by
    rw [Option.isNone_iff_eq_none]
    cases hfind : csFind snap (evalKey addr kind) with
    | none => rfl
    | some d => rw [hfind] at hnew; simp at hnew
  have hstrict : ((heapAddrs heap).filter fun a =>
        (csFind (capturePointer snap addr kind) (evalKey a kind)).isNone).length <
      ((heapAddrs heap).filter fun a => (csFind snap (evalKey a kind)).isNone).length :=
    filter_length_lt_of_flip (heapAddrs heap) _ _ addr haddr hself_none hsnap_none himp
  have hother : ∀ kd, ((heapAddrs heap).filter fun a =>
        (csFind (capturePointer snap addr kind) (evalKey a kd)).isNone).length ≤
      ((heapAddrs heap).filter fun a => (csFind snap (evalKey a kd)).isNone).length := by
    intro kd
    apply filter_length_le_of_imp
    intro x hx
    rw [Option.isNone_iff_eq_none] at hx ⊢
    cases hfind : csFind snap (evalKey x kd) with
    | none => rfl
    | some d =>
      have := hgrow (evalKey x kd) (by simp [hfind])
      rw [hx] at this
      simp at this
  rcases hkind with hkind | hkind <;> subst hkind
  · unfold unvisitedCount
    have := hother kindPtr
    omega
  · unfold unvisitedCount
    have := hother kindInterface
    omega

end Immcheck

namespace Immcheck

theorem one_le_sizeG (v : GoValue) : 1 ≤ sizeG v := by
  cases v <;> simp [sizeG]

theorem one_le_sizeL (l : List GoValue) : 1 ≤ sizeL l := by
  cases l with
  | nil => simp [sizeL]
  | cons f fs => simp [sizeL]; omega

theorem one_le_sizeE (l : List (GoValue × GoValue)) : 1 ≤ sizeE l := by
  cases l with
  | nil => simp [sizeE]
  | cons kv es => rcases kv with ⟨k, v⟩; simp [sizeE]; omega

theorem unvisitedCount_rawBytes_le (hash : List Nat → Nat) (snap : Checksums)
    (heap : Heap) (bytes : List Nat) (kd : Nat) :
    unvisitedCount (captureRawBytesLevelChecksum hash snap bytes kd) heap ≤
      unvisitedCount snap heap := by
  simpa [captureRawBytesLevelChecksum] using
    unvisitedCount_insert_le snap heap (evalKey (hash bytes % (2 ^ 64)) kd)
      (hash bytes % (2 ^ 64))

/-- The traversal never exhausts its fuel once the fuel exceeds the cost
measure: structural size of the pending work plus one largest-node allowance
per unvisited reference locator.  In particular capture terminates on every
well-formed (possibly cyclic) value graph. -/
theorem captureGo_not_outOfFuel (hash : List Nat → Nat) (heap : Heap) (o : Options)
    (hheap : heapOK heap = true) :
    ∀ fuel snap task, taskOK heap task = true →
      captureNeed heap snap task < fuel →
      captureGo hash heap o fuel snap task ≠ .outOfFuel := by
  intro fuel
  induction fuel with
  | zero =>
    intro snap task htask hneed
    exact absurd hneed (Nat.not_lt_zero _)
  | succ n ih =>
    intro snap task htask hneed
    cases task with
    | value v =>
      cases v with
      | scalar kind bytes =>
        rw [captureGo_step_scalar]
        simp
      | strct bytes fields =>
        rw [captureGo_step_strct]
        split
        · simp
        · apply ih
          · simpa [taskOK, refsOK] using htask
          · simp only [captureNeed, taskSize, sizeG] at hneed ⊢
            have hunv := unvisitedCount_rawBytes_le hash snap heap bytes kindStruct
            have hmul := Nat.mul_le_mul_right (1 + maxNodeSize heap) hunv
            omega
      | seq kind dataPtr span elems =>
        cases elems with
        | nil =>
          rw [captureGo_step_seq_nil]
          simp
        | cons e rest =>
          rw [captureGo_step_seq_cons]
          split
          · simp
          · apply ih
            · simpa [taskOK, refsOK] using htask
            · simp only [captureNeed, taskSize, sizeG] at hneed ⊢
              have hunv := unvisitedCount_rawBytes_le hash snap heap
                (convertSliceBasedTypeToByteSlice (.seq kind dataPtr span (e :: rest))) kind
              have hmul := Nat.mul_le_mul_right (1 + maxNodeSize heap) hunv
              omega
      | assoc addr entries =>
        rw [captureGo_step_assoc]
        split
        · simp
        · apply ih
          · simpa [taskOK, refsOK] using htask
          · simp only [captureNeed, taskSize, sizeG] at hneed ⊢
            have hunv := unvisitedCount_insert_le snap heap (evalKey addr kindMap)
              entries.length
            have hmul := Nat.mul_le_mul_right (1 + maxNodeSize heap) hunv
            omega
      | ref kind addr =>
        rw [captureGo_step_ref]
        split
        · simp
        · rename_i haddr
          split
          · simp
          · rename_i hvisited
            simp only [taskOK, refsOK, Bool.and_eq_true, Bool.or_eq_true] at htask
            obtain ⟨hkind, haddr2⟩ := htask
            have hsome : (heapFind heap addr).isSome = true := by
              rcases haddr2 with h0 | hs
              · exact absurd (by exact decide_eq_true_eq.mp h0) haddr
              · exact hs
            cases hfind : heapFind heap addr with
            | none => rw [hfind] at hsome; simp at hsome
            | some pointee =>
              simp only [hfind]
              have hmem := heapFind_mem heap addr pointee hfind
              apply ih
              · simpa [taskOK] using heapOK_refsOK heap addr pointee hheap hmem
              · have hnew : (csFind snap (evalKey addr kind)).isSome = false := by
                  cases hc : (csFind snap (evalKey addr kind)).isSome
                  · rfl
                  · exact absurd hc hvisited
                have hkind' : kind = kindInterface ∨ kind = kindPtr := by
                  rcases hkind with h | h
                  · left; exact decide_eq_true_eq.mp h
                  · right; exact decide_eq_true_eq.mp h
                have hlt := unvisitedCount_capturePointer_lt snap heap kind addr hkind'
                  (mem_heapAddrs heap addr pointee hmem) hnew
                have hsz := sizeG_le_maxNodeSize heap addr pointee hmem
                simp only [captureNeed, taskSize, sizeG] at hneed ⊢
                have hmul := Nat.mul_le_mul_right (1 + maxNodeSize heap)
                  (Nat.le_sub_one_of_lt hlt)
                have hsub : (unvisitedCount snap heap - 1) * (1 + maxNodeSize heap) =
                    unvisitedCount snap heap * (1 + maxNodeSize heap) -
                      (1 + maxNodeSize heap) := by
                  rw [Nat.sub_mul, Nat.one_mul]
                have hpos : 1 ≤ unvisitedCount snap heap := by omega
                have hKle : (1 + maxNodeSize heap) ≤
                    unvisitedCount snap heap * (1 + maxNodeSize heap) :=
                  Nat.le_mul_of_pos_left _ (by omega)
                omega
      | rawKind kind addr =>
        rw [captureGo_step_rawKind]
        split
        · simp
        · simp
      | invalidV =>
        rw [captureGo_step_invalid]
        simp
    | fields fs =>
      cases fs with
      | nil =>
        rw [captureGo_step_fields_nil]
        simp
      | cons f rest =>
        rw [captureGo_step_fields_cons]
        simp only [taskOK, refsOKList, Bool.and_eq_true] at htask
        obtain ⟨hf, hrest⟩ := htask
        simp only [captureNeed, taskSize, sizeL] at hneed
        have hK1 : 1 ≤ sizeL rest := one_le_sizeL rest
        split
        · apply ih
          · simpa [taskOK] using hrest
          · simp only [captureNeed, taskSize]
            omega
        · cases hcall : captureGo hash heap o n snap (.value f) with
          | ok snap1 =>
            simp only [hcall]
            apply ih
            · simpa [taskOK] using hrest
            · have hunv := unvisitedCount_antitone snap snap1 heap
                (captureGo_keys_mono hash heap o n snap (.value f) snap1 hcall)
              have hmul := Nat.mul_le_mul_right (1 + maxNodeSize heap) hunv
              simp only [captureNeed, taskSize]
              omega
          | err e =>
            simp only [hcall]
            simp
          | outOfFuel =>
            exfalso
            refine ih snap (.value f) (by simpa [taskOK] using hf) ?_ hcall
            simp only [captureNeed, taskSize]
            omega
    | items es =>
      cases es with
      | nil =>
        rw [captureGo_step_items_nil]
        simp
      | cons e rest =>
        rw [captureGo_step_items_cons]
        simp only [taskOK, refsOKList, Bool.and_eq_true] at htask
        obtain ⟨he, hrest⟩ := htask
        simp only [captureNeed, taskSize, sizeL] at hneed
        have hK1 : 1 ≤ sizeL rest := one_le_sizeL rest
        cases hcall : captureGo hash heap o n snap (.value e) with
        | ok snap1 =>
          simp only [hcall]
          apply ih
          · simpa [taskOK] using hrest
          · have hunv := unvisitedCount_antitone snap snap1 heap
              (captureGo_keys_mono hash heap o n snap (.value e) snap1 hcall)
            have hmul := Nat.mul_le_mul_right (1 + maxNodeSize heap) hunv
            simp only [captureNeed, taskSize]
            omega
        | err e' =>
          simp only [hcall]
          simp
        | outOfFuel =>
          exfalso
          refine ih snap (.value e) (by simpa [taskOK] using he) ?_ hcall
          simp only [captureNeed, taskSize]
          omega
    | entries es =>
      cases es with
      | nil =>
        rw [captureGo_step_entries_nil]
        simp
      | cons kv rest =>
        rcases kv with ⟨k, v⟩
        rw [captureGo_step_entries_cons]
        simp only [taskOK, refsOKEntries, Bool.and_eq_true] at htask
        obtain ⟨hk, hv, hrest⟩ := htask
        simp only [captureNeed, taskSize, sizeE] at hneed
        have hK1 : 1 ≤ sizeE rest := one_le_sizeE rest
        have hG1 : 1 ≤ sizeG v := one_le_sizeG v
        have hG2 : 1 ≤ sizeG k := one_le_sizeG k
        cases hcall : captureGo hash heap o n snap (.value k) with
        | ok snap1 =>
          simp only [hcall]
          have hunv1 := unvisitedCount_antitone snap snap1 heap
            (captureGo_keys_mono hash heap o n snap (.value k) snap1 hcall)
          cases hcall2 : captureGo hash heap o n snap1 (.value v) with
          | ok snap2 =>
            simp only [hcall2]
            apply ih
            · simpa [taskOK] using hrest
            · have hunv2 := unvisitedCount_antitone snap1 snap2 heap
                (captureGo_keys_mono hash heap o n snap1 (.value v) snap2 hcall2)
              have hmul := Nat.mul_le_mul_right (1 + maxNodeSize heap)
                (le_trans hunv2 hunv1)
              simp only [captureNeed, taskSize]
              omega
          | err e' =>
            simp only [hcall2]
            simp
          | outOfFuel =>
            exfalso
            refine ih snap1 (.value v) (by simpa [taskOK] using hv) ?_ hcall2
            have hmul := Nat.mul_le_mul_right (1 + maxNodeSize heap) hunv1
            simp only [captureNeed, taskSize]
            omega
        | err e' =>
          simp only [hcall]
          simp
        | outOfFuel =>
          exfalso
          refine ih snap (.value k) (by simpa [taskOK] using hk) ?_ hcall
          simp only [captureNeed, taskSize]
          omega

end Immcheck

namespace Immcheck

/-! Claim theorems.  Concrete material shared by witnesses: a concrete
injective-on-small-inputs stand-in content hash (the real hash is the
external xxhash.Sum64, kept abstract in the theorems), default options, and
little-endian byte images of small Go ints. -/

/-- Concrete hash instance used by witnesses only. -/
def encHash (bs : List Nat) : Nat :=
  bs.foldl (fun a b => a * 31 + b + 1) 7

/-- ImmutabilityCheckOptions{} — the zero value used by CaptureSnapshot and
EnsureImmutability. -/
def defaultOptions : Options := ⟨false, false⟩

/-- Options with AllowInherentlyUnsafeTypes set. -/
def allowAllOptions : Options := ⟨false, true⟩

/-- Little-endian 8-byte image of a small Go int. -/
def intBytes (n : Nat) : List Nat :=
  [n % 256, (n / 256) % 256, 0, 0, 0, 0, 0, 0]

/-- C4: Comparing two snapshots when either snapshot's Fingerprint is empty
(never populated by a capture) always fails with InvalidSnapshotState rather
than returning an equality verdict; in particular, comparing two freshly
constructed, never-captured Snapshots fails with InvalidSnapshotState. -/
theorem C4_invalid_snapshot_guard :
    (∀ a b : Checksums, a.length = 0 ∨ b.length = 0 →
      checkImmutabilityAgainst a b = .invalidSnapshotState) ∧
    checkImmutabilityAgainst newValueSnapshot newValueSnapshot = .invalidSnapshotState := by
  constructor
  · intro a b h
    simp only [checkImmutabilityAgainst, if_pos h]
  · rfl

theorem C4_invalid_snapshot_guard_witness :
    ((([] : Checksums).length = 0 ∨ ([(3, 4)] : Checksums).length = 0) ∧
      checkImmutabilityAgainst [] [(3, 4)] = .invalidSnapshotState) :=
  ⟨Or.inl rfl, C4_invalid_snapshot_guard.1 [] [(3, 4)] (Or.inl rfl)⟩

/-- C5: A value of an inherently unsafe kind (Chan, Func, UnsafePointer)
fails capture with UnsupportedType when AllowInherentlyUnsafeTypes is not
set, from any traversal context; with the option set, capture records exactly
one terminal address-derived digest for it and traverses nothing behind it.
A struct containing such a field fails the same way. -/
theorem C5_unsafe_kind_policy :
    (∀ (hash : List Nat → Nat) (heap : Heap) (skip : Bool) (fuel : Nat)
        (snap : Checksums) (kind addr : Nat),
      kind = kindChan ∨ kind = kindFunc ∨ kind = kindUnsafePointer →
        captureChecksumMap hash heap ⟨skip, false⟩ (fuel + 1) snap (.rawKind kind addr) =
          .err .unsupportedType ∧
        captureChecksumMap hash heap ⟨skip, true⟩ (fuel + 1) snap (.rawKind kind addr) =
          .ok (csInsert snap (evalKey addr kind) addr)) ∧
    (∀ (hash : List Nat → Nat) (heap : Heap) (skip : Bool) (fuel : Nat)
        (snap : Checksums) (bytes : List Nat) (kind addr : Nat),
      kind = kindChan ∨ kind = kindFunc ∨ kind = kindUnsafePointer →
        captureChecksumMap hash heap ⟨skip, false⟩ (fuel + 3) snap
          (.strct bytes [.rawKind kind addr]) = .err .unsupportedType) := by
  constructor
  · intro hash heap skip fuel snap kind addr _
    constructor
    · rw [captureChecksumMap, captureGo_step_rawKind]
      rfl
    · rw [captureChecksumMap, captureGo_step_rawKind]
      rfl
  · intro hash heap skip fuel snap bytes kind addr _
    have h3 : fuel + 3 = (fuel + 1 + 1) + 1 := by omega
    rw [captureChecksumMap, h3, captureGo_step_strct]
    rw [if_neg (by simp [valueIsPrimitive, fieldsPrimitive])]
    rw [captureGo_step_fields_cons]
    rw [if_neg (by simp [valueIsPrimitive])]
    rw [captureGo_step_rawKind]
    rfl

theorem C5_unsafe_kind_policy_witness :
    (captureChecksumMap encHash [] ⟨false, false⟩ 3 [] (.rawKind kindFunc 5) =
        .err .unsupportedType ∧
      captureChecksumMap encHash [] ⟨false, true⟩ 3 [] (.rawKind kindFunc 5) =
        .ok (csInsert [] (evalKey 5 kindFunc) 5)) ∧
    captureChecksumMap encHash [] ⟨false, false⟩ 3 [] (.strct [9] [.rawKind kindFunc 5]) =
      .err .unsupportedType := by
  constructor
  · exact C5_unsafe_kind_policy.1 encHash [] false 2 [] kindFunc 5 (Or.inr (Or.inl rfl))
  · exact C5_unsafe_kind_policy.2 encHash [] false 0 [] [9] kindFunc 5 (Or.inr (Or.inl rfl))

/-- C8: Capturing an associative container: a nil map (header address 0)
records a terminal digest derived from the header address; a non-nil map
records its entry count as the digest under the container's own locator
(header address XOR the Map kind) and then runs the entry loop, which
captures every key and every value. -/
theorem C8_assoc_capture :
    (∀ (hash : List Nat → Nat) (heap : Heap) (o : Options) (fuel : Nat)
        (snap : Checksums) (entries : List (GoValue × GoValue)),
      captureChecksumMap hash heap o (fuel + 1) snap (.assoc 0 entries) =
        .ok (capturePointer snap 0 kindMap)) ∧
    (∀ (hash : List Nat → Nat) (heap : Heap) (o : Options) (fuel : Nat)
        (snap : Checksums) (addr : Nat) (entries : List (GoValue × GoValue)),
      addr ≠ 0 →
      captureChecksumMap hash heap o (fuel + 1) snap (.assoc addr entries) =
        captureGo hash heap o fuel
          (csInsert snap (evalKey addr kindMap) entries.length) (.entries entries)) ∧
    (∀ (hash : List Nat → Nat) (heap : Heap) (o : Options) (fuel : Nat)
        (snap : Checksums) (k v : GoValue) (rest : List (GoValue × GoValue)),
      captureGo hash heap o (fuel + 1) snap (.entries ((k, v) :: rest)) =
        (match captureGo hash heap o fuel snap (.value k) with
        | .ok snapshot1 =>
          match captureGo hash heap o fuel snapshot1 (.value v) with
          | .ok snapshot2 => captureGo hash heap o fuel snapshot2 (.entries rest)
          | r => r
        | r => r)) := by
  refine ⟨?_, ?_, ?_⟩
  · intro hash heap o fuel snap entries
    rw [captureChecksumMap, captureGo_step_assoc]
    rfl
  · intro hash heap o fuel snap addr entries haddr
    rw [captureChecksumMap, captureGo_step_assoc, if_neg haddr]
  · intro hash heap o fuel snap k v rest
    exact captureGo_step_entries_cons hash heap o fuel snap k v rest

theorem C8_assoc_capture_witness :
    captureChecksumMap encHash [] defaultOptions 9 [] 
        (.assoc 7 [(.scalar kindInt (intBytes 1), .scalar kindInt (intBytes 2))]) =
      captureGo encHash [] defaultOptions 8
        (csInsert [] (evalKey 7 kindMap) 1)
        (.entries [(.scalar kindInt (intBytes 1), .scalar kindInt (intBytes 2))]) := by
  exact C8_assoc_capture.2.1 encHash [] defaultOptions 8 [] 7
    [(.scalar kindInt (intBytes 1), .scalar kindInt (intBytes 2))] (by decide)

/-- C6: Capture terminates on every well-formed value graph, cyclic ones
included, with fuel bounded via the number of distinct heap addresses (each
unvisited reference locator contributes one largest-node allowance); and a
reference whose locator is already in the Fingerprint short-circuits,
returning the snapshot unchanged (an ok outcome, never an error). -/
theorem C6_cycle_termination :
    (∀ (hash : List Nat → Nat) (heap : Heap) (o : Options) (fuel : Nat)
        (snap : Checksums) (kind addr d : Nat),
      addr ≠ 0 → csFind snap (evalKey addr kind) = some d →
      captureChecksumMap hash heap o (fuel + 1) snap (.ref kind addr) = .ok snap) ∧
    (∀ (hash : List Nat → Nat) (heap : Heap) (o : Options) (fuel : Nat)
        (snap : Checksums) (v : GoValue),
      heapOK heap = true → refsOK heap v = true →
      sizeG v + unvisitedCount snap heap * (1 + maxNodeSize heap) < fuel →
      captureChecksumMap hash heap o fuel snap v ≠ .outOfFuel) := by
  constructor
  · intro hash heap o fuel snap kind addr d haddr hfound
    rw [captureChecksumMap, captureGo_step_ref, if_neg haddr,
      if_pos (by simp [hfound])]
  · intro hash heap o fuel snap v hheap hv hbound
    exact captureGo_not_outOfFuel hash heap o hheap fuel snap (.value v)
      (by simpa [taskOK] using hv) (by simpa [captureNeed, taskSize] using hbound)

/-- The two-node mutually referencing heap used in the C6 witness. -/
def cycleHeap : Heap := [(1, .ref kindPtr 2), (2, .ref kindPtr 1)]

theorem C6_cycle_termination_witness :
    captureChecksumMap encHash cycleHeap defaultOptions 7
        [(evalKey 1 kindPtr, 1)] (.ref kindPtr 1) = .ok [(evalKey 1 kindPtr, 1)] ∧
    captureChecksumMap encHash cycleHeap defaultOptions 10 [] (.ref kindPtr 1) ≠
      .outOfFuel := by
  constructor
  · exact C6_cycle_termination.1 encHash cycleHeap defaultOptions 6
      [(evalKey 1 kindPtr, 1)] kindPtr 1 1 (by decide) (by decide)
  · exact C6_cycle_termination.2 encHash cycleHeap defaultOptions 10 [] (.ref kindPtr 1)
      (by decide) (by decide) (by decide)

end Immcheck

namespace Immcheck

theorem fieldsPrimitive_iff (l : List GoValue) :
    fieldsPrimitive l = true ↔ ∀ f ∈ l, valueIsPrimitive f = true := by
  induction l with
  | nil => simp [fieldsPrimitive]
  | cons f fs ih => simp [fieldsPrimitive, Bool.and_eq_true, ih]

/-- Go map assignment with an already-present identical binding leaves the
checksum map unchanged. -/
theorem csInsert_idem (snap : Checksums) (k v : Nat) :
    csInsert (csInsert snap k v) k v = csInsert snap k v := by
  induction snap with
  | nil => simp [csInsert]
  | cons p rest ih =>
    rcases p with ⟨pk, pv⟩
    by_cases hp : pk = k
    · simp [csInsert, hp]
    · simp [csInsert, hp, ih]

/-- C9: The type classifier marks exactly scalars and all-primitive-field
structs as primitive, everything else (sequence, container, reference, text,
interface, unsafe or invalid kinds) as non-primitive; and capturing a struct
hashes its whole raw span as one digest and then recurses into exactly the
non-primitive fields (primitive fields are never recursed into). -/
theorem C9_classifier_struct_recursion :
    (∀ v : GoValue, valueIsPrimitive v = true ↔
      ((∃ kind bytes, v = .scalar kind bytes) ∨
       (∃ bytes fields, v = .strct bytes fields ∧
          ∀ f ∈ fields, valueIsPrimitive f = true))) ∧
    (∀ (hash : List Nat → Nat) (heap : Heap) (o : Options) (fuel : Nat)
        (snap : Checksums) (bytes : List Nat) (fields : List GoValue) (r : CapResult),
      captureChecksumMap hash heap o (fuel + 1) snap (.strct bytes fields) = r →
      r ≠ .outOfFuel →
      captureGo hash heap o (fuel + 1)
        (captureRawBytesLevelChecksum hash snap bytes kindStruct)
        (.items (fields.filter fun f => ! valueIsPrimitive f)) = r) := by
  constructor
  · intro v
    cases v
    case strct bytes fields =>
      simp only [valueIsPrimitive, fieldsPrimitive_iff]
      constructor
      · intro h
        exact Or.inr ⟨bytes, fields, rfl, h⟩
      · rintro (⟨k, b, hEq⟩ | ⟨b, fs, hEq, hall⟩)
        · cases hEq
        · injection hEq with h1 h2
          subst h2
          exact hall
    all_goals simp [valueIsPrimitive, fieldsPrimitive_iff]
  · intro hash heap o fuel snap bytes fields r h hr
    rw [captureChecksumMap, captureGo_step_strct] at h
    by_cases hp : valueIsPrimitive (.strct bytes fields) = true
    · rw [if_pos hp] at h
      have hall : ∀ f ∈ fields, valueIsPrimitive f = true :=
        (fieldsPrimitive_iff fields).mp (by simpa [valueIsPrimitive] using hp)
      have hfil : fields.filter (fun f => ! valueIsPrimitive f) = [] := by
        rw [List.filter_eq_nil_iff]
        intro f hf
        simp [hall f hf]
      rw [hfil, captureGo_step_items_nil]
      exact h
    · rw [if_neg hp] at h
      exact captureGo_fuel_succ hash heap o fuel _ _ r
        (captureGo_fields_filter hash heap o fuel _ fields r h hr) hr

theorem C9_classifier_struct_recursion_witness :
    captureChecksumMap encHash [] defaultOptions 5 []
        (.strct [9] [.scalar kindInt (intBytes 1), .ref kindPtr 0]) =
      .ok [(250, 227), (22, 0)] ∧
    captureGo encHash [] defaultOptions 5
        (captureRawBytesLevelChecksum encHash [] [9] kindStruct)
        (.items (([GoValue.scalar kindInt (intBytes 1), .ref kindPtr 0]).filter
          fun f => ! valueIsPrimitive f)) = .ok [(250, 227), (22, 0)] := by
  have h1 : captureChecksumMap encHash [] defaultOptions 5 []
      (.strct [9] [.scalar kindInt (intBytes 1), .ref kindPtr 0]) =
        .ok [(250, 227), (22, 0)] := by decide
  exact ⟨h1, C9_classifier_struct_recursion.2 encHash [] defaultOptions 4 [] [9]
    [.scalar kindInt (intBytes 1), .ref kindPtr 0] _ h1 (by decide)⟩

/-- C10: Scalar (and primitive-struct) fingerprint entries are keyed by the
truncated content hash XOR the kind — no memory address enters the key or the
digest; re-capturing a value of identical kind and identical bytes into the
same fingerprint leaves it unchanged (the two occurrences collapse into one
entry); and, the kind being fixed, the keys of two such entries differ
exactly when their truncated content digests differ. -/
theorem C10_content_keyed_entries :
    (∀ (hash : List Nat → Nat) (heap : Heap) (o : Options) (fuel : Nat)
        (snap : Checksums) (kind : Nat) (bytes : List Nat),
      captureChecksumMap hash heap o (fuel + 1) snap (.scalar kind bytes) =
        .ok (csInsert snap (evalKey (hash bytes % (2 ^ 64)) kind)
          (hash bytes % (2 ^ 64)))) ∧
    (∀ (hash : List Nat → Nat) (heap : Heap) (o : Options) (fuel : Nat)
        (snap : Checksums) (bytes : List Nat) (fields : List GoValue),
      valueIsPrimitive (.strct bytes fields) = true →
      captureChecksumMap hash heap o (fuel + 1) snap (.strct bytes fields) =
        .ok (csInsert snap (evalKey (hash bytes % (2 ^ 64)) kindStruct)
          (hash bytes % (2 ^ 64)))) ∧
    (∀ (hash : List Nat → Nat) (heap : Heap) (o : Options) (fuel fuel' : Nat)
        (snap cs : Checksums) (kind : Nat) (bytes : List Nat),
      captureChecksumMap hash heap o (fuel + 1) snap (.scalar kind bytes) = .ok cs →
      captureChecksumMap hash heap o (fuel' + 1) cs (.scalar kind bytes) = .ok cs) ∧
    (∀ h1 h2 kind : Nat, evalKey h1 kind = evalKey h2 kind ↔ h1 = h2) := by
  refine ⟨?_, ?_, ?_, ?_⟩
  · intro hash heap o fuel snap kind bytes
    rw [captureChecksumMap, captureGo_step_scalar]
    rfl
  · intro hash heap o fuel snap bytes fields hp
    rw [captureChecksumMap, captureGo_step_strct, if_pos hp]
    rfl
  · intro hash heap o fuel fuel' snap cs kind bytes h
    rw [captureChecksumMap, captureGo_step_scalar] at h ⊢
    have hcs : cs = csInsert snap (evalKey (hash bytes % (2 ^ 64)) kind)
        (hash bytes % (2 ^ 64)) := by
      cases h
      rfl
    rw [hcs]
    show CapResult.ok (csInsert (csInsert snap _ _) _ _) = _
    rw [csInsert_idem]
  · intro h1 h2 kind
    constructor
    · intro h
      have : h1 ^^^ kind ^^^ kind = h2 ^^^ kind ^^^ kind := by
        simp only [evalKey] at h
        rw [h]
      simpa [Nat.xor_assoc, Nat.xor_self, Nat.xor_zero] using this
    · intro h
      rw [evalKey, evalKey, h]

theorem C10_content_keyed_entries_witness :
    captureChecksumMap encHash [] defaultOptions 3 []
        (.strct [7] []) =
      .ok (csInsert [] (evalKey (encHash [7] % (2 ^ 64)) kindStruct)
        (encHash [7] % (2 ^ 64))) ∧
    captureChecksumMap encHash [] defaultOptions 4
        (csInsert [] (evalKey (encHash [5] % (2 ^ 64)) kindInt) (encHash [5] % (2 ^ 64)))
        (.scalar kindInt [5]) =
      .ok (csInsert [] (evalKey (encHash [5] % (2 ^ 64)) kindInt)
        (encHash [5] % (2 ^ 64))) := by
  constructor
  · exact C10_content_keyed_entries.2.1 encHash [] defaultOptions 2 [] [7] [] (by decide)
  · exact C10_content_keyed_entries.2.2.1 encHash [] defaultOptions 1 3 [] _ kindInt [5]
      (C10_content_keyed_entries.1 encHash [] defaultOptions 1 [] kindInt [5])

end Immcheck

namespace Immcheck

/-- With the kind fixed, evalKey is injective in the digest argument (XOR
cancellation). -/
theorem evalKey_left_inj (h1 h2 kind : Nat) :
    evalKey h1 kind = evalKey h2 kind ↔ h1 = h2 := by
  constructor
  · intro h
    have hx : h1 ^^^ kind ^^^ kind = h2 ^^^ kind ^^^ kind := by
      simp only [evalKey] at h
      rw [h]
    simpa [Nat.xor_assoc, Nat.xor_self, Nat.xor_zero] using hx
  · intro h
    rw [evalKey, evalKey, h]

/-- Concatenated little-endian byte images of a list of small Go ints: the
backing span of an int slice. -/
def intSpan : List Nat → List Nat
  | [] => []
  | n :: ns => intBytes n ++ intSpan ns

/-- A small Go int value. -/
def goInt (n : Nat) : GoValue := .scalar kindInt (intBytes n)

/-- A slice of small Go ints with the given backing-array address. -/
def intSlice (dataPtr : Nat) (ns : List Nat) : GoValue :=
  .seq kindSlice dataPtr (intSpan ns) (ns.map fun n => .scalar kindInt (intBytes n))

/-- C7 counterexample: capturing an empty slice does not record a terminal
digest derived from the backing address.  The recorded entry is the content
hash of the empty span keyed by that hash, it is identical for two different
backing addresses (9 and 8), and it differs from the address-derived terminal
entry the claim predicts for address 9. -/
theorem C7_counterexample :
    captureChecksumMap encHash [] defaultOptions 5 [] (.seq kindSlice 9 [] []) =
      .ok [(evalKey (encHash [] % (2 ^ 64)) kindSlice, encHash [] % (2 ^ 64))] ∧
    captureChecksumMap encHash [] defaultOptions 5 [] (.seq kindSlice 8 [] []) =
      captureChecksumMap encHash [] defaultOptions 5 [] (.seq kindSlice 9 [] []) ∧
    captureChecksumMap encHash [] defaultOptions 5 [] (.seq kindSlice 9 [] []) ≠
      .ok [(evalKey 9 kindSlice, 9)] := by
  refine ⟨by decide, by decide, by decide⟩

/-- C7 (amended): for an indexable sequence capture always hashes the backing
byte span as one digest — the empty span for an empty (or nil) sequence,
keyed by its content hash rather than by the address — and, when the sequence
is non-empty, recurses into each index exactly when the element type is
non-primitive. -/
theorem C7_sequence_capture_amended :
    (∀ (hash : List Nat → Nat) (heap : Heap) (o : Options) (fuel : Nat)
        (snap : Checksums) (kind dataPtr : Nat) (span : List Nat),
      captureChecksumMap hash heap o (fuel + 1) snap (.seq kind dataPtr span []) =
        .ok (captureRawBytesLevelChecksum hash snap [] kind)) ∧
    (∀ (hash : List Nat → Nat) (heap : Heap) (o : Options) (fuel : Nat)
        (snap : Checksums) (kind dataPtr : Nat) (span : List Nat)
        (e : GoValue) (rest : List GoValue),
      valueIsPrimitive e = true →
      captureChecksumMap hash heap o (fuel + 1) snap (.seq kind dataPtr span (e :: rest)) =
        .ok (captureRawBytesLevelChecksum hash snap span kind)) ∧
    (∀ (hash : List Nat → Nat) (heap : Heap) (o : Options) (fuel : Nat)
        (snap : Checksums) (kind dataPtr : Nat) (span : List Nat)
        (e : GoValue) (rest : List GoValue),
      valueIsPrimitive e = false →
      captureChecksumMap hash heap o (fuel + 1) snap (.seq kind dataPtr span (e :: rest)) =
        captureGo hash heap o fuel
          (captureRawBytesLevelChecksum hash snap span kind) (.items (e :: rest))) := by
  refine ⟨?_, ?_, ?_⟩
  · intro hash heap o fuel snap kind dataPtr span
    rw [captureChecksumMap, captureGo_step_seq_nil]
    rfl
  · intro hash heap o fuel snap kind dataPtr span e rest hp
    rw [captureChecksumMap, captureGo_step_seq_cons, if_pos hp]
    rfl
  · intro hash heap o fuel snap kind dataPtr span e rest hp
    rw [captureChecksumMap, captureGo_step_seq_cons, if_neg (by simp [hp])]
    rfl

theorem C7_sequence_capture_amended_witness :
    captureChecksumMap encHash [] defaultOptions 2 []
        (.seq kindSlice 5 (intBytes 1) [goInt 1]) =
      .ok (captureRawBytesLevelChecksum encHash [] (intBytes 1) kindSlice) ∧
    captureChecksumMap encHash [] defaultOptions 2 []
        (.seq kindSlice 5 [3] [.ref kindPtr 0]) =
      captureGo encHash [] defaultOptions 1
        (captureRawBytesLevelChecksum encHash [] [3] kindSlice) (.items [.ref kindPtr 0]) := by
  constructor
  · exact C7_sequence_capture_amended.2.1 encHash [] defaultOptions 1 [] kindSlice 5
      (intBytes 1) (goInt 1) [] (by decide)
  · exact C7_sequence_capture_amended.2.2 encHash [] defaultOptions 1 [] kindSlice 5
      [3] (.ref kindPtr 0) [] (by decide)

/-- The map value constructed for the C1 counterexample: map[int]int{1:2, 3:2}
at header address 9, and the same map after the single mutation m[1] = 3 (the
stored value 2 becomes 3, a change within one reachable byte). -/
def c1MapBefore : GoValue := .assoc 9 [(goInt 1, goInt 2), (goInt 3, goInt 2)]

/-- The mutated map map[int]int{1:3, 3:2}. -/
def c1MapAfter : GoValue := .assoc 9 [(goInt 1, goInt 3), (goInt 3, goInt 2)]

/-- C1 counterexample: flipping a single reachable byte does not always
produce a mismatch.  For map[int]int{1:2, 3:2}, changing the value stored
under key 1 from 2 to 3 (one byte of reachable memory) yields a fingerprint
with exactly the same entries — the new value's content digest collapses with
the entry already written for key 3 while the old value's digest survives as
the digest of value 2 under key 3 — so the comparison of the before and
after snapshots reports no mismatch. -/
theorem C1_counterexample :
    captureChecksumMap encHash [] defaultOptions 9 [] c1MapBefore =
      .ok [(28, 2), (6026179577444, 6026179577446), (6053692191559, 6053692191557),
        (6081204805670, 6081204805668)] ∧
    captureChecksumMap encHash [] defaultOptions 9 [] c1MapAfter =
      .ok [(28, 2), (6026179577444, 6026179577446), (6081204805670, 6081204805668),
        (6053692191559, 6053692191557)] ∧
    checkImmutabilityAgainst
      [(28, 2), (6026179577444, 6026179577446), (6053692191559, 6053692191557),
        (6081204805670, 6081204805668)]
      [(28, 2), (6026179577444, 6026179577446), (6081204805670, 6081204805668),
        (6053692191559, 6053692191557)] = .ok ∧
    c1MapBefore ≠ c1MapAfter := by
  refine ⟨by decide, by decide, by decide, ?_⟩
  intro h
  simp [c1MapBefore, c1MapAfter, goInt, intBytes] at h

/-- C1 (amended): mutation sensitivity holds whenever the content digests
differ; in particular, for the concrete 4-element int sequence case: capture
[1,2,3,4], mutate index 0 to 99, and the comparison of the two snapshots
reports a mismatch provided the (collision-free in practice) content hash
separates the two spans; re-capturing without further mutation reports
no-mismatch.  The fully general single-byte claim fails on content-digest
collapsing inside associative containers (see the counterexample). -/
theorem C1_mutation_sensitivity_amended :
    ∀ (hash : List Nat → Nat) (p p' : Nat) (fuel : Nat),
      hash (intSpan [1, 2, 3, 4]) % (2 ^ 64) ≠ hash (intSpan [99, 2, 3, 4]) % (2 ^ 64) →
      ∀ cs1 cs2 cs3 : Checksums,
        captureChecksumMap hash [] defaultOptions (fuel + 1) []
          (intSlice p [1, 2, 3, 4]) = .ok cs1 →
        captureChecksumMap hash [] defaultOptions (fuel + 1) []
          (intSlice p' [99, 2, 3, 4]) = .ok cs2 →
        captureChecksumMap hash [] defaultOptions (fuel + 1) []
          (intSlice p' [99, 2, 3, 4]) = .ok cs3 →
        checkImmutabilityAgainst cs1 cs2 = .mutationDetected ∧
        checkImmutabilityAgainst cs2 cs3 = .ok := by
  intro hash p p' fuel hneq cs1 cs2 cs3 h1 h2 h3
  have e1 : captureChecksumMap hash [] defaultOptions (fuel + 1) []
      (intSlice p [1, 2, 3, 4]) =
        .ok [(evalKey (hash (intSpan [1, 2, 3, 4]) % (2 ^ 64)) kindSlice,
          hash (intSpan [1, 2, 3, 4]) % (2 ^ 64))] := by
    rw [intSlice, List.map, captureChecksumMap, captureGo_step_seq_cons,
      if_pos (by rfl)]
    rfl
  have e2 : captureChecksumMap hash [] defaultOptions (fuel + 1) []
      (intSlice p' [99, 2, 3, 4]) =
        .ok [(evalKey (hash (intSpan [99, 2, 3, 4]) % (2 ^ 64)) kindSlice,
          hash (intSpan [99, 2, 3, 4]) % (2 ^ 64))] := by
    rw [intSlice, List.map, captureChecksumMap, captureGo_step_seq_cons,
      if_pos (by rfl)]
    rfl
  rw [e1] at h1
  rw [e2] at h2 h3
  cases h1
  cases h2
  cases h3
  have hkey : evalKey (hash (intSpan [1, 2, 3, 4]) % (2 ^ 64)) kindSlice ≠
      evalKey (hash (intSpan [99, 2, 3, 4]) % (2 ^ 64)) kindSlice := by
    intro h
    exact hneq ((evalKey_left_inj _ _ kindSlice).mp h)
  have hkey2 : evalKey (hash (intSpan [1, 2, 3, 4]) % 18446744073709551616) kindSlice ≠
      evalKey (hash (intSpan [99, 2, 3, 4]) % 18446744073709551616) kindSlice := by
    simpa using hkey
  constructor
  · simp [checkImmutabilityAgainst, checksumEquals, csFind, hkey2]
  · simp [checkImmutabilityAgainst, checksumEquals, csFind]

theorem C1_mutation_sensitivity_amended_witness :
    encHash (intSpan [1, 2, 3, 4]) % (2 ^ 64) ≠
      encHash (intSpan [99, 2, 3, 4]) % (2 ^ 64) ∧
    checkImmutabilityAgainst
        [(14500121500946534570, 14500121500946534589)]
        [(2304444379997438988, 2304444379997439003)] = .mutationDetected ∧
    checkImmutabilityAgainst
        [(2304444379997438988, 2304444379997439003)]
        [(2304444379997438988, 2304444379997439003)] = .ok := by
  have hcap1 : captureChecksumMap encHash [] defaultOptions 2 []
      (intSlice 5 [1, 2, 3, 4]) =
        .ok [(14500121500946534570, 14500121500946534589)] := by decide
  have hcap2 : captureChecksumMap encHash [] defaultOptions 2 []
      (intSlice 5 [99, 2, 3, 4]) =
        .ok [(2304444379997438988, 2304444379997439003)] := by decide
  have h := C1_mutation_sensitivity_amended encHash 5 5 1 (by decide)
    _ _ _ hcap1 hcap2 hcap2
  exact ⟨by decide, h.1, h.2⟩

end Immcheck

namespace Immcheck

/-- The Go string "a" as a value: String kind, one-byte span, one uint8
element. -/
def strA : GoValue := .seq kindString 11 [97] [.scalar kindUint8 [97]]

/-- The Go string "b" as a value. -/
def strB : GoValue := .seq kindString 12 [98] [.scalar kindUint8 [98]]

/-- The map {"a": 1, "b": 2} enumerated in one order. -/
def mapAB (addr : Nat) : GoValue := .assoc addr [(strA, goInt 1), (strB, goInt 2)]

/-- The same map enumerated in the opposite order. -/
def mapBA (addr : Nat) : GoValue := .assoc addr [(strB, goInt 2), (strA, goInt 1)]

/-- C2: capturing an unmodified value twice always compares as no-mismatch
(the traversal is deterministic, keeps checksum keys unique, and a successful
root capture is never empty); and the associative container {"a":1, "b":2}
fingerprinted under the two enumeration orders still compares equal — entries
land in a keyed map — whenever the five involved locator keys do not collide
(true of any collision-free 64-bit content hash, e.g. the concrete witness
instance). -/
theorem C2_idempotence_order_independence :
    (∀ (hash : List Nat → Nat) (heap : Heap) (o : Options) (fuel : Nat)
        (v : GoValue) (cs : Checksums),
      captureChecksumMap hash heap o fuel newValueSnapshot v = .ok cs →
      checkImmutabilityAgainst cs cs = .ok) ∧
    (∀ (hash : List Nat → Nat) (addr : Nat), addr ≠ 0 →
      evalKey addr kindMap ≠ evalKey (hash [97] % (2 ^ 64)) kindString →
      evalKey addr kindMap ≠ evalKey (hash (intBytes 1) % (2 ^ 64)) kindInt →
      evalKey addr kindMap ≠ evalKey (hash [98] % (2 ^ 64)) kindString →
      evalKey addr kindMap ≠ evalKey (hash (intBytes 2) % (2 ^ 64)) kindInt →
      evalKey (hash [97] % (2 ^ 64)) kindString ≠
        evalKey (hash (intBytes 1) % (2 ^ 64)) kindInt →
      evalKey (hash [97] % (2 ^ 64)) kindString ≠
        evalKey (hash [98] % (2 ^ 64)) kindString →
      evalKey (hash [97] % (2 ^ 64)) kindString ≠
        evalKey (hash (intBytes 2) % (2 ^ 64)) kindInt →
      evalKey (hash (intBytes 1) % (2 ^ 64)) kindInt ≠
        evalKey (hash [98] % (2 ^ 64)) kindString →
      evalKey (hash (intBytes 1) % (2 ^ 64)) kindInt ≠
        evalKey (hash (intBytes 2) % (2 ^ 64)) kindInt →
      evalKey (hash [98] % (2 ^ 64)) kindString ≠
        evalKey (hash (intBytes 2) % (2 ^ 64)) kindInt →
      ∀ cs1 cs2 : Checksums,
        captureChecksumMap hash [] defaultOptions 9 [] (mapAB addr) = .ok cs1 →
        captureChecksumMap hash [] defaultOptions 9 [] (mapBA addr) = .ok cs2 →
        checkImmutabilityAgainst cs1 cs2 = .ok) := by
  constructor
  · intro hash heap o fuel v cs h
    rw [captureChecksumMap] at h
    have hne := captureGo_value_nonempty hash heap o fuel newValueSnapshot v cs h
    have hnd := captureGo_nodup hash heap o fuel newValueSnapshot (.value v) cs h
      List.Pairwise.nil
    have heqs := checksumEquals_refl cs hnd
    rw [checkImmutabilityAgainst, if_neg (by omega), if_pos heqs]
  · intro hash addr haddr hMA hM1 hMB hM2 hA1 hAB hA2 h1B h12 hB2 cs1 cs2 h1 h2
    have e1 : captureChecksumMap hash [] defaultOptions 9 [] (mapAB addr) =
        .ok [(evalKey addr kindMap, 2),
          (evalKey (hash [97] % (2 ^ 64)) kindString, hash [97] % (2 ^ 64)),
          (evalKey (hash (intBytes 1) % (2 ^ 64)) kindInt, hash (intBytes 1) % (2 ^ 64)),
          (evalKey (hash [98] % (2 ^ 64)) kindString, hash [98] % (2 ^ 64)),
          (evalKey (hash (intBytes 2) % (2 ^ 64)) kindInt,
            hash (intBytes 2) % (2 ^ 64))] := by
      rw [mapAB, captureChecksumMap, captureGo_step_assoc, if_neg haddr]
      simp only [strA, strB, goInt, captureGo_step_entries_cons, captureGo_step_entries_nil,
        captureGo_step_seq_cons, captureGo_step_scalar, valueIsPrimitive, if_true,
        convertSliceBasedTypeToByteSlice, captureRawBytesLevelChecksum, csInsert,
        List.length_cons, List.length_nil, zero_add, one_ne_zero, one_add_one_eq_two,
        hMA, hM1, hMB, hM2, hA1, hAB, hA2, h1B, h12, hB2, if_false]
    have e2 : captureChecksumMap hash [] defaultOptions 9 [] (mapBA addr) =
        .ok [(evalKey addr kindMap, 2),
          (evalKey (hash [98] % (2 ^ 64)) kindString, hash [98] % (2 ^ 64)),
          (evalKey (hash (intBytes 2) % (2 ^ 64)) kindInt, hash (intBytes 2) % (2 ^ 64)),
          (evalKey (hash [97] % (2 ^ 64)) kindString, hash [97] % (2 ^ 64)),
          (evalKey (hash (intBytes 1) % (2 ^ 64)) kindInt,
            hash (intBytes 1) % (2 ^ 64))] := by
      rw [mapBA, captureChecksumMap, captureGo_step_assoc, if_neg haddr]
      simp only [strA, strB, goInt, captureGo_step_entries_cons, captureGo_step_entries_nil,
        captureGo_step_seq_cons, captureGo_step_scalar, valueIsPrimitive, if_true,
        convertSliceBasedTypeToByteSlice, captureRawBytesLevelChecksum, csInsert,
        List.length_cons, List.length_nil, zero_add, one_ne_zero, one_add_one_eq_two,
        hMA, hM1, hMB, hM2, hA1, hAB, hA2, h1B, h12, hB2,
        Ne.symm hAB, Ne.symm hA2, Ne.symm h1B, Ne.symm h12, Ne.symm hB2, if_false]
    rw [e1] at h1
    rw [e2] at h2
    cases h1
    cases h2
    simp only [checkImmutabilityAgainst, checksumEquals, csFind, List.all_cons, List.all_nil,
      List.length_cons, List.length_nil, ne_eq, eq_self_iff_true, not_true, if_false, if_true,
      hMA, hM1, hMB, hM2, hA1, hAB, hA2, h1B, h12, hB2,
      Bool.and_eq_true, decide_eq_true_eq, Bool.and_true, Bool.true_and]
    simp

theorem C2_idempotence_order_independence_witness :
    checkImmutabilityAgainst [(6026179577444, 6026179577446)]
        [(6026179577444, 6026179577446)] = .ok ∧
    checkImmutabilityAgainst
        [(18, 2), (291, 315), (6026179577444, 6026179577446), (292, 316),
          (6053692191559, 6053692191557)]
        [(18, 2), (292, 316), (6053692191559, 6053692191557), (291, 315),
          (6026179577444, 6026179577446)] = .ok := by
  have hcap : captureChecksumMap encHash [] defaultOptions 2 newValueSnapshot (goInt 1) =
      .ok [(6026179577444, 6026179577446)] := by decide
  have hab : captureChecksumMap encHash [] defaultOptions 9 [] (mapAB 7) =
      .ok [(18, 2), (291, 315), (6026179577444, 6026179577446), (292, 316),
        (6053692191559, 6053692191557)] := by decide
  have hba : captureChecksumMap encHash [] defaultOptions 9 [] (mapBA 7) =
      .ok [(18, 2), (292, 316), (6053692191559, 6053692191557), (291, 315),
        (6026179577444, 6026179577446)] := by decide
  constructor
  · exact C2_idempotence_order_independence.1 encHash [] defaultOptions 2 (goInt 1)
      [(6026179577444, 6026179577446)] hcap
  · exact C2_idempotence_order_independence.2 encHash 7 (by decide) (by decide) (by decide)
      (by decide) (by decide) (by decide) (by decide) (by decide) (by decide) (by decide)
      (by decide) _ _ hab hba

end Immcheck

namespace Immcheck

/-- The global tempSnapshotsPool (immcheck.go lines 141-146) together with
the ValueSnapshot objects it hands out: store maps object identity to the
object's current checksum content, freeList is the pool's free stack (Get
returns the most recently Put object, New allocates an empty snapshot when
the pool is empty), nextId numbers fresh allocations. -/
structure PoolState : Type where
  store : List (Nat × Checksums)
  freeList : List Nat
  nextId : Nat
  deriving DecidableEq

/-- Overwrite one pooled object's content. -/
def storeSet : List (Nat × Checksums) → Nat → Checksums → List (Nat × Checksums)
  | [], objId, cs => [(objId, cs)]
  | (i, c) :: rest, objId, cs =>
    if i = objId then (objId, cs) :: rest else (i, c) :: storeSet rest objId cs

/-- Read one pooled object's content. -/
def storeGet : List (Nat × Checksums) → Nat → Checksums
  | [], _ => []
  | (i, c) :: rest, objId => if i = objId then c else storeGet rest objId

/-- tempSnapshotsPool.Get: pop the most recently returned object, or allocate
a fresh empty snapshot via newValueSnapshot. -/
def poolGet : PoolState → Nat × PoolState
  | ⟨store, objId :: rest, next⟩ => (objId, ⟨store, rest, next⟩)
  | ⟨store, [], next⟩ => (next, ⟨storeSet store next newValueSnapshot, [], next + 1⟩)

/-- tempSnapshotsPool.Put: push an object onto the free stack.  The object's
content is not cleared; Reset happens on the next use. -/
def poolPut (st : PoolState) (objId : Nat) : PoolState :=
  ⟨st.store, objId :: st.freeList, st.nextId⟩

/-- ensureImmutability (immcheck.go lines 148-171): Get a snapshot object
from the pool, reset it (initValueSnapshot) and capture the value into it;
the returned object id is what the closure retains as originalSnapshot.
Returns none when the capture panics or runs out of fuel. -/
def ensureImmutability (hash : List Nat → Nat) (heap : Heap) (options : Options)
    (fuel : Nat) (st : PoolState) (v : GoValue) : Option (Nat × PoolState) :=
  match poolGet st with
  | (origId, st1) =>
    match captureChecksumMap hash heap options fuel
        (resetSnapshot (storeGet st1.store origId)) v with
    | .ok cs => some (origId, ⟨storeSet st1.store origId cs, st1.freeList, st1.nextId⟩)
    | _ => none

/-- One invocation of the closure returned by ensureImmutability (immcheck.go
lines 158-170), on the value's current state: Get a snapshot object, reset
and recapture into it, run originalSnapshot.CheckImmutabilityAgainst on the
retained original OBJECT's current content, then — the two deferred Puts, in
their LIFO execution order — return first originalSnapshot and then the new
snapshot to the pool.  When the pool handed back the very object the closure
retains as originalSnapshot, the recapture overwrites it and the comparison
runs against the recaptured content itself. -/
def invokeEnsureCallback (hash : List Nat → Nat) (heap : Heap) (options : Options)
    (fuel : Nat) (origId : Nat) (current : GoValue) (st : PoolState) :
    Option CheckResult × PoolState :=
  match poolGet st with
  | (newId, st1) =>
    match captureChecksumMap hash heap options fuel
        (resetSnapshot (storeGet st1.store newId)) current with
    | .ok newCs =>
      (some (checkImmutabilityAgainst (storeGet (storeSet st1.store newId newCs) origId)
          (storeGet (storeSet st1.store newId newCs) newId)),
        poolPut (poolPut ⟨storeSet st1.store newId newCs, st1.freeList, st1.nextId⟩
          origId) newId)
    | _ => (none, poolPut (poolPut st1 origId) newId)

/-- The four-step client scenario exhibiting the pool lifecycle bug:
f := EnsureImmutability(a) with a = int 10; f() (no mutation, passes, but the
closure's deferred Puts return the retained original snapshot to the pool);
g := EnsureImmutability(b) with b = int 77 (recycles one pooled object);
a is mutated to 99; f() is invoked a second time.  The run returns that
second invocation's outcome. -/
def c3Run : Option CheckResult :=
  match ensureImmutability encHash [] defaultOptions 3 ⟨[], [], 0⟩ (goInt 10) with
  | some (fid, st1) =>
    match invokeEnsureCallback encHash [] defaultOptions 3 fid (goInt 10) st1 with
    | (some .ok, st2) =>
      match ensureImmutability encHash [] defaultOptions 3 st2 (goInt 77) with
      | some (_, st3) =>
        (invokeEnsureCallback encHash [] defaultOptions 3 fid (goInt 99) st3).1
      | none => none
    | _ => none
  | none => none

/-- C3 (exhibiting a code bug): the callback returned by EnsureImmutability
cannot be soundly invoked a second time, because each invocation's deferred
Puts return the retained original snapshot to the pool while the closure
still holds it.  In the scenario of c3Run, an unrelated EnsureImmutability
call recycles one pooled object, and the second invocation of the first
callback then receives its own original snapshot object back as the new
snapshot, recaptures the (mutated) value over it, and compares the object
against itself: the run reports ok — no panic — even though the value
changed from int 10 to int 99 and the comparison of the original capture
against a fresh capture, which the claim (and the function's own doc
comment, "Returned function can be called multiple times. If mutation is
detected returned function will panic.") mandates, reports
MutationDetected. -/
theorem C3_pool_recycling_bug :
    c3Run = some CheckResult.ok ∧
    captureChecksumMap encHash [] defaultOptions 3 [] (goInt 10) =
      .ok [(6273793104447, 6273793104445)] ∧
    captureChecksumMap encHash [] defaultOptions 3 [] (goInt 99) =
      .ok [(8722415760326, 8722415760324)] ∧
    checkImmutabilityAgainst [(6273793104447, 6273793104445)]
      [(8722415760326, 8722415760324)] = .mutationDetected := by
  refine ⟨by decide, by decide, by decide, by decide⟩

end Immcheck
